import Mathlib

/-!
Verification development for the OpenAPI utility layer (`src/utils.py`) of
swagger-to-docs: a shallow embedding of the JSON document model and of the
validator / analyzer / exporter functions, together with theorems settling
the specification claims.

Python values are modelled by the `Json` tree; Python dictionaries are
association lists preserving insertion (document) order, as Python dicts do.
Exceptions (`KeyError`, `TypeError`, `AttributeError`, `IndexError`) are
modelled by the `Py` error monad; `try/except (KeyError, TypeError)` is the
`tryKT` handler.  File writes in the exporters are modelled by returning the
written content.
-/

inductive Json where
  | null
  | bool (b : Bool)
  | num (n : Int)
  | str (s : String)
  | arr (elems : List Json)
  | obj (fields : List (String × Json))

inductive PyErr where
  | keyError
  | typeError
  | attributeError
  | indexError
deriving DecidableEq

abbrev Py (α : Type) := Except PyErr α

mutual

def Json.beq : Json → Json → Bool
  | .null, .null => true
  | .bool a, .bool b => a == b
  | .num a, .num b => a == b
  | .str a, .str b => a == b
  | .arr a, .arr b => Json.beqList a b
  | .obj a, .obj b => Json.beqFields a b
  | _, _ => false

def Json.beqList : List Json → List Json → Bool
  | [], [] => true
  | a :: as, b :: bs => Json.beq a b && Json.beqList as bs
  | _, _ => false

def Json.beqFields : List (String × Json) → List (String × Json) → Bool
  | [], [] => true
  | (k, v) :: as, (k', v') :: bs => k == k' && Json.beq v v' && Json.beqFields as bs
  | _, _ => false

end

mutual

theorem Json.beq_iff : ∀ (a b : Json), Json.beq a b = true ↔ a = b
  | .null, b => by cases b <;> simp [Json.beq]
  | .bool x, b => by cases b <;> simp [Json.beq]
  | .num x, b => by cases b <;> simp [Json.beq]
  | .str x, b => by cases b <;> simp [Json.beq]
  | .arr xs, b => by
      cases b <;> simp [Json.beq]
      exact Json.beqList_iff xs _

  | .obj xs, b => by
      cases b <;> simp [Json.beq]
      exact Json.beqFields_iff xs _

theorem Json.beqList_iff : ∀ (a b : List Json), Json.beqList a b = true ↔ a = b
  | [], b => by cases b <;> simp [Json.beqList]
  | x :: xs, b => by
      cases b with
      | nil => simp [Json.beqList]
      | cons y ys =>
          simp [Json.beqList, Json.beq_iff x y, Json.beqList_iff xs ys]

theorem Json.beqFields_iff : ∀ (a b : List (String × Json)), Json.beqFields a b = true ↔ a = b
  | [], b => by cases b <;> simp [Json.beqFields]
  | (k, v) :: xs, b => by
      cases b with
      | nil => simp [Json.beqFields]
      | cons y ys =>
          obtain ⟨k', v'⟩ := y
          simp [Json.beqFields, Json.beq_iff v v', Json.beqFields_iff xs ys]

end

instance : DecidableEq Json := fun a b => decidable_of_iff _ (Json.beq_iff a b)

deriving instance DecidableEq for Except

/-- Python's `str.upper` (ASCII letters, which is all the source applies it to). -/
def pyUpper (s : String) : String := ⟨s.data.map Char.toUpper⟩

/-- Python's `str.lower` (ASCII letters, which is all the source applies it to). -/
def pyLower (s : String) : String := ⟨s.data.map Char.toLower⟩

/-- Lexicographic (code-point) strict comparison of character lists, as Python
compares strings. -/
def listLtChar : List Char → List Char → Bool
  | [], [] => false
  | [], _ :: _ => true
  | _ :: _, [] => false
  | a :: as, b :: bs => if a < b then true else if b < a then false else listLtChar as bs

/-- Python's `<` on strings. -/
def strLt (a b : String) : Bool := listLtChar a.data b.data

def isPrefixOfChars : List Char → List Char → Bool
  | [], _ => true
  | _ :: _, [] => false
  | a :: as, b :: bs => a == b && isPrefixOfChars as bs

/-- Substring containment of character lists (Python's `needle in haystack`
for strings). -/
def containsSub (needle : List Char) : List Char → Bool
  | [] => isPrefixOfChars needle []
  | c :: t => isPrefixOfChars needle (c :: t) || containsSub needle t

/-- First-match lookup in an association list; Python dicts never hold
duplicate keys, and lookup of the unique binding is modelled by the first
match. -/
def lookupField (kvs : List (String × Json)) (k : String) : Option Json :=
  match kvs with
  | [] => none
  | (k', v) :: rest => if k' == k then some v else lookupField rest k

/-- Python `d.get(key, default)` on a value statically known to be a dict. -/
def dictGetD (kvs : List (String × Json)) (k : String) (d : Json) : Json :=
  (lookupField kvs k).getD d

/-- Python duck-typed `j.get(key, default)`: `AttributeError` unless `j` is a
dict. -/
def pyGet (j : Json) (k : String) (d : Json) : Py Json :=
  match j with
  | .obj kvs => .ok (dictGetD kvs k d)
  | _ => .error .attributeError

/-- Total variant of `pyGet`, returning the default on non-dict values; used
only to state theorems about runs in which `pyGet` succeeded. -/
def jsonGetD (j : Json) (k : String) (d : Json) : Json :=
  match j with
  | .obj kvs => dictGetD kvs k d
  | _ => d

/-- Python `key in j` for a string key: key membership for dicts, substring
test for strings, element membership for lists, `TypeError` otherwise. -/
def pyContainsStr (j : Json) (k : String) : Py Bool :=
  match j with
  | .obj kvs => .ok (kvs.any (fun p => p.1 == k))
  | .str s => .ok (containsSub k.data s.data)
  | .arr xs => .ok (xs.contains (Json.str k))
  | _ => .error .typeError

/-- Python `j[key]` for a string key: dict lookup (`KeyError` when missing),
`TypeError` on every other value. -/
def pyIndexStr (j : Json) (k : String) : Py Json :=
  match j with
  | .obj kvs =>
      match lookupField kvs k with
      | some v => .ok v
      | none => .error .keyError
  | _ => .error .typeError

/-- Python `j[i]` for a natural index: list indexing (`IndexError` out of
range), character of a string, `KeyError` on dicts (whose keys here are
strings), `TypeError` otherwise. -/
def pyIndexNat (j : Json) (i : Nat) : Py Json :=
  match j with
  | .arr xs =>
      match xs[i]? with
      | some v => .ok v
      | none => .error .indexError
  | .str s =>
      match s.data[i]? with
      | some c => .ok (.str (String.singleton c))
      | none => .error .indexError
  | .obj _ => .error .keyError
  | _ => .error .typeError

/-- Python `j.items()`: `AttributeError` unless `j` is a dict. -/
def pyItems (j : Json) : Py (List (String × Json)) :=
  match j with
  | .obj kvs => .ok kvs
  | _ => .error .attributeError

/-- Python `for x in j`: list elements, characters of a string, keys of a
dict, `TypeError` otherwise. -/
def pyIter (j : Json) : Py (List Json) :=
  match j with
  | .arr xs => .ok xs
  | .str s => .ok (s.data.map (fun c => .str (String.singleton c)))
  | .obj kvs => .ok (kvs.map (fun p => .str p.1))
  | _ => .error .typeError

/-- Python truthiness. -/
def pyTruthy : Json → Bool
  | .null => false
  | .bool b => b
  | .num n => n != 0
  | .str s => !s.data.isEmpty
  | .arr xs => !xs.isEmpty
  | .obj kvs => !kvs.isEmpty

/-- Python `len`. -/
def pyLen (j : Json) : Py Nat :=
  match j with
  | .str s => .ok s.length
  | .arr xs => .ok xs.length
  | .obj kvs => .ok kvs.length
  | _ => .error .typeError

/-- Whether a value may be a dict key (Python hashability: lists and dicts are
unhashable). -/
def pyHashable : Json → Bool
  | .arr _ => false
  | .obj _ => false
  | _ => true

/-- `d[k] = d.get(k, 0) + 1` on a counting dict: an existing key keeps its
position, a new key is appended — exactly Python dict update order. -/
def bumpCount (m : List (Json × Nat)) (k : Json) : List (Json × Nat) :=
  match m with
  | [] => [(k, 1)]
  | (k', n) :: rest => if k' == k then (k', n + 1) :: rest else (k', n) :: bumpCount rest k

def pyBumpCount (m : List (Json × Nat)) (k : Json) : Py (List (Json × Nat)) :=
  if pyHashable k then .ok (bumpCount m k) else .error .typeError

/-- String-keyed counting-dict update (keys here are always hashable). -/
def bumpCountS (m : List (String × Nat)) (k : String) : List (String × Nat) :=
  match m with
  | [] => [(k, 1)]
  | (k', n) :: rest => if k' == k then (k', n + 1) :: rest else (k', n) :: bumpCountS rest k

/-- `d[k] = v` on a string-keyed dict: overwrite in place or append. -/
def dictInsert (m : List (String × Json)) (k : String) (v : Json) : List (String × Json) :=
  match m with
  | [] => [(k, v)]
  | (k', v') :: rest => if k' == k then (k', v) :: rest else (k', v') :: dictInsert rest k v

/-- `try: ... except (KeyError, TypeError): return default`. -/
def tryKT {α : Type} (x : Py α) (d : α) : Py α :=
  match x with
  | .error .keyError => .ok d
  | .error .typeError => .ok d
  | other => other

def quoteChar : String := String.singleton (Char.ofNat 39)

mutual

/-- Python `repr` of a JSON-shaped value. -/
def pyRepr : Json → String
  | .null => "None"
  | .bool true => "True"
  | .bool false => "False"
  | .num n => toString n
  | .str s => quoteChar ++ s ++ quoteChar
  | .arr xs => "[" ++ pyReprList xs ++ "]"
  | .obj kvs => "\x7b" ++ pyReprFields kvs ++ "\x7d"

def pyReprList : List Json → String
  | [] => ""
  | [x] => pyRepr x
  | x :: y :: xs => pyRepr x ++ ", " ++ pyReprList (y :: xs)

def pyReprFields : List (String × Json) → String
  | [] => ""
  | [(k, v)] => quoteChar ++ k ++ quoteChar ++ ": " ++ pyRepr v
  | (k, v) :: y :: xs => quoteChar ++ k ++ quoteChar ++ ": " ++ pyRepr v ++ ", " ++ pyReprFields (y :: xs)

end

/-- Python `str` of a JSON-shaped value (as `csv.DictWriter` applies to each
cell). -/
def pyStr : Json → String
  | .str s => s
  | j => pyRepr j

def joinStrList (sep : String) : List String → String
  | [] => ""
  | [s] => s
  | s :: y :: rest => s ++ sep ++ joinStrList sep (y :: rest)

/-- Python `sep.join(j)`: iterates `j` and requires every element to be a
string. -/
def pyJoin (sep : String) (j : Json) : Py String := do
  let elems ← pyIter j
  let strs ← elems.mapM (fun e =>
    match e with
    | .str s => (.ok s : Py String)
    | _ => (.error .typeError : Py String))
  .ok (joinStrList sep strs)

/-! ## Validator (`OpenAPIValidator.is_valid_openapi`, src/utils.py lines 13-35) -/

def errMissingOpenapi : String :=
  "Missing " ++ quoteChar ++ "openapi" ++ quoteChar ++ " or " ++ quoteChar ++ "swagger" ++ quoteChar ++ " field"

def errMissingInfo : String := "Missing " ++ quoteChar ++ "info" ++ quoteChar ++ " object"

def errInfoNotObject : String := quoteChar ++ "info" ++ quoteChar ++ " must be an object"

def errMissingTitle : String := "Missing " ++ quoteChar ++ "info.title" ++ quoteChar

def errMissingVersion : String := "Missing " ++ quoteChar ++ "info.version" ++ quoteChar

def errMissingPaths : String := "Missing " ++ quoteChar ++ "paths" ++ quoteChar ++ " object"

/-- `OpenAPIValidator.is_valid_openapi(spec: dict)`: the argument is a Python
dict (an ordered association list here); the function is pure and total. -/
def is_valid_openapi (spec : List (String × Json)) : Bool × List String :=
  let e₁ : List String :=
    if lookupField spec "openapi" = none ∧ lookupField spec "swagger" = none
    then [errMissingOpenapi] else []
  let e₂ : List String :=
    match lookupField spec "info" with
    | none => [errMissingInfo]
    | some info =>
      match info with
      | Json.obj ikvs =>
          (if lookupField ikvs "title" = none then [errMissingTitle] else []) ++
          (if lookupField ikvs "version" = none then [errMissingVersion] else [])
      | _ => [errInfoNotObject]
  let e₃ : List String :=
    if lookupField spec "paths" = none then [errMissingPaths] else []
  let errors := e₁ ++ e₂ ++ e₃
  (errors.isEmpty, errors)

/-! ## Analyzer (`OpenAPIAnalyzer`, src/utils.py lines 38-188).
The analyzer's state is its `spec` dict; each method takes it as the first
argument. -/

def httpMethods : List String := ["get", "post", "put", "delete", "patch", "head", "options"]

structure Statistics where
  title : Json
  version : Json
  total_endpoints : Nat
  methods : List (String × Nat)
  tags : List (Json × Nat)
  schemas : Nat
  security_schemes : Nat
deriving DecidableEq

/-- Inner loop of `get_statistics`: `for tag in operation.get("tags", ["untagged"])`. -/
def statsTagsLoop (ts : List Json) (tc : List (Json × Nat)) : Py (List (Json × Nat)) :=
  match ts with
  | [] => .ok tc
  | t :: rest => do
      let tc' ← pyBumpCount tc t
      statsTagsLoop rest tc'

/-- Method loop of `get_statistics` for one `(path, path_item)` entry. -/
def statsMethodsLoop (pathItem : Json) (ms : List String)
    (acc : Nat × List (String × Nat) × List (Json × Nat)) :
    Py (Nat × List (String × Nat) × List (Json × Nat)) :=
  match ms with
  | [] => .ok acc
  | m :: rest => do
      let hit ← pyContainsStr pathItem m
      if hit then do
        let (cnt, mc, tc) := acc
        let cnt' := cnt + 1
        let mc' := bumpCountS mc m
        let op ← pyIndexStr pathItem m
        let tagsVal ← pyGet op "tags" (Json.arr [Json.str "untagged"])
        let ts ← pyIter tagsVal
        let tc' ← statsTagsLoop ts tc
        statsMethodsLoop pathItem rest (cnt', mc', tc')
      else
        statsMethodsLoop pathItem rest acc

/-- Path loop of `get_statistics`: `for path, path_item in paths.items()`. -/
def statsPathsLoop (items : List (String × Json))
    (acc : Nat × List (String × Nat) × List (Json × Nat)) :
    Py (Nat × List (String × Nat) × List (Json × Nat)) :=
  match items with
  | [] => .ok acc
  | (_, pathItem) :: rest => do
      let acc' ← statsMethodsLoop pathItem httpMethods acc
      statsPathsLoop rest acc'

/-- `OpenAPIAnalyzer.get_statistics` (src/utils.py lines 44-72). -/
def get_statistics (spec : List (String × Json)) : Py Statistics := do
  let paths := dictGetD spec "paths" (Json.obj [])
  let items ← pyItems paths
  let (cnt, mc, tc) ← statsPathsLoop items (0, [], [])
  let components := dictGetD spec "components" (Json.obj [])
  let info := dictGetD spec "info" (Json.obj [])
  let title ← pyGet info "title" (Json.str "Unknown")
  let version ← pyGet info "version" (Json.str "Unknown")
  let schemasVal ← pyGet components "schemas" (Json.obj [])
  let nSchemas ← pyLen schemasVal
  let secVal ← pyGet components "securitySchemes" (Json.obj [])
  let nSec ← pyLen secVal
  .ok ⟨title, version, cnt, mc, tc, nSchemas, nSec⟩

structure TaggedEndpoint where
  method : String
  path : String
  summary : Json
  description : Json
deriving DecidableEq

/-- Method loop of `find_endpoints_by_tag` for one `(path, path_item)` entry. -/
def findMethodsLoop (tag : String) (path : String) (pathItem : Json) (ms : List String) :
    Py (List TaggedEndpoint) :=
  match ms with
  | [] => .ok []
  | m :: rest => do
      let hit ← pyContainsStr pathItem m
      if hit then do
        let op ← pyIndexStr pathItem m
        let tagsVal ← pyGet op "tags" (Json.arr [])
        let isTagged ← pyContainsStr tagsVal tag
        if isTagged then do
          let summary ← pyGet op "summary" (Json.str "")
          let description ← pyGet op "description" (Json.str "")
          let rest' ← findMethodsLoop tag path pathItem rest
          .ok (⟨pyUpper m, path, summary, description⟩ :: rest')
        else
          findMethodsLoop tag path pathItem rest
      else
        findMethodsLoop tag path pathItem rest

def findPathsLoop (tag : String) (items : List (String × Json)) : Py (List TaggedEndpoint) :=
  match items with
  | [] => .ok []
  | (path, pathItem) :: rest => do
      let eps ← findMethodsLoop tag path pathItem httpMethods
      let rest' ← findPathsLoop tag rest
      .ok (eps ++ rest')

/-- `OpenAPIAnalyzer.find_endpoints_by_tag` (src/utils.py lines 74-90). -/
def find_endpoints_by_tag (spec : List (String × Json)) (tag : String) :
    Py (List TaggedEndpoint) := do
  let paths := dictGetD spec "paths" (Json.obj [])
  let items ← pyItems paths
  findPathsLoop tag items

/-- Content-type loop of `get_request_body_schema`: returns the first
content entry carrying a `schema`. -/
def rbContentLoop (ckvs : List (String × Json)) : Py (Option Json) :=
  match ckvs with
  | [] => .ok none
  | (_, cd) :: rest => do
      let has ← pyContainsStr cd "schema"
      if has then do
        let s ← pyIndexStr cd "schema"
        .ok (some s)
      else
        rbContentLoop rest

/-- The chained subscription `self.spec["paths"][path][method]` shared by
`get_request_body_schema` and `get_response_schemas`. -/
def opLookup (spec : List (String × Json)) (path m : String) : Py Json := do
  let pathsV ← pyIndexStr (Json.obj spec) "paths"
  let item ← pyIndexStr pathsV path
  pyIndexStr item m

/-- `OpenAPIAnalyzer.get_request_body_schema` (src/utils.py lines 109-124). -/
def get_request_body_schema (spec : List (String × Json)) (path method : String) :
    Py (Option Json) :=
  let m := pyLower method
  tryKT (do
    let op ← opLookup spec path m
    let rb ← pyGet op "requestBody" (Json.obj [])
    let content ← pyGet rb "content" (Json.obj [])
    let ckvs ← pyItems content
    rbContentLoop ckvs) none

/-- Content-type loop of `get_response_schemas` for one status: each entry
carrying a `schema` overwrites `schemas[status]`. -/
def respContentLoop (status : String) (ckvs : List (String × Json))
    (acc : List (String × Json)) : Py (List (String × Json)) :=
  match ckvs with
  | [] => .ok acc
  | (_, cd) :: rest => do
      let has ← pyContainsStr cd "schema"
      if has then do
        let s ← pyIndexStr cd "schema"
        respContentLoop status rest (dictInsert acc status s)
      else
        respContentLoop status rest acc

/-- Status loop of `get_response_schemas`: `for status, response in responses.items()`. -/
def respLoop (rkvs : List (String × Json)) (acc : List (String × Json)) :
    Py (List (String × Json)) :=
  match rkvs with
  | [] => .ok acc
  | (status, resp) :: rest => do
      let content ← pyGet resp "content" (Json.obj [])
      let ckvs ← pyItems content
      let acc' ← respContentLoop status ckvs acc
      respLoop rest acc'

/-- `OpenAPIAnalyzer.get_response_schemas` (src/utils.py lines 126-143). -/
def get_response_schemas (spec : List (String × Json)) (path method : String) :
    Py (List (String × Json)) :=
  let m := pyLower method
  tryKT (do
    let op ← opLookup spec path m
    let responses ← pyGet op "responses" (Json.obj [])
    let rkvs ← pyItems responses
    respLoop rkvs []) []

/-- Descent loop of `resolve_schema_reference`: `for part in parts: obj = obj[part]`. -/
def descendLoop (obj : Json) (parts : List String) : Py Json :=
  match parts with
  | [] => .ok obj
  | p :: rest => do
      let o' ← pyIndexStr obj p
      descendLoop o' rest

/-- Python's `s.split("/")` (character-list implementation, matching
`str.split` with an explicit separator). -/
def splitOnSlash (cs : List Char) : List (List Char) :=
  match cs with
  | [] => [[]]
  | a :: rest =>
      let r := splitOnSlash rest
      if a == '/' then [] :: r
      else
        match r with
        | h :: t => (a :: h) :: t
        | [] => [[a]]

def strSplitSlash (s : String) : List String := (splitOnSlash s.data).map (fun l => ⟨l⟩)

/-- Python's `s.startswith(pre)`. -/
def strStartsWith (s pre : String) : Bool := isPrefixOfChars pre.data s.data

/-- `OpenAPIAnalyzer.resolve_schema_reference` (src/utils.py lines 145-158). -/
def resolve_schema_reference (spec : List (String × Json)) (ref : String) :
    Py (Option Json) :=
  if !(strStartsWith ref "#/") then .ok none
  else
    tryKT (do
      let o ← descendLoop (Json.obj spec) (strSplitSlash ⟨ref.data.drop 2⟩)
      .ok (some o)) none

structure Endpoint where
  method : String
  path : String
  summary : Json
  tags : Json
  deprecated : Json
deriving DecidableEq

/-- The sort key of `list_all_endpoints`: Python's
`key=lambda x: (x["path"], x["method"])` — lexicographic on the path string,
then the method string, by code-point string comparison. -/
def epLe (a b : Endpoint) : Bool :=
  strLt a.path b.path || (a.path == b.path && (strLt a.method b.method || a.method == b.method))

def epOrder : Endpoint → Endpoint → Prop := fun a b => epLe a b = true

instance : DecidableRel epOrder := fun _ _ => inferInstanceAs (Decidable (_ = true))

/-- Method loop of `list_all_endpoints` for one `(path, path_item)` entry. -/
def listMethodsLoop (path : String) (pathItem : Json) (ms : List String) :
    Py (List Endpoint) :=
  match ms with
  | [] => .ok []
  | m :: rest => do
      let hit ← pyContainsStr pathItem m
      if hit then do
        let op ← pyIndexStr pathItem m
        let summary ← pyGet op "summary" (Json.str "")
        let tags ← pyGet op "tags" (Json.arr [])
        let deprecated ← pyGet op "deprecated" (Json.bool false)
        let rest' ← listMethodsLoop path pathItem rest
        .ok (⟨pyUpper m, path, summary, tags, deprecated⟩ :: rest')
      else
        listMethodsLoop path pathItem rest

def listPathsLoop (items : List (String × Json)) : Py (List Endpoint) :=
  match items with
  | [] => .ok []
  | (path, pathItem) :: rest => do
      let eps ← listMethodsLoop path pathItem httpMethods
      let rest' ← listPathsLoop rest
      .ok (eps ++ rest')

/-- `OpenAPIAnalyzer.list_all_endpoints` (src/utils.py lines 172-188).
Python's `sorted` is a stable sort; it is modelled by Mathlib's stable
insertion sort, which computes the same list for the same total preorder. -/
def list_all_endpoints (spec : List (String × Json)) : Py (List Endpoint) := do
  let paths := dictGetD spec "paths" (Json.obj [])
  let items ← pyItems paths
  let eps ← listPathsLoop items
  .ok (List.insertionSort epOrder eps)

/-! ## Exporters (`OpenAPIExporter`, src/utils.py lines 191-281). -/

def csvHeader : List String := ["Method", "Path", "Summary", "Tags", "Deprecated"]

/-- Row loop of `export_endpoints_csv`: one row of rendered cells per
endpoint, in order. -/
def csvRowsLoop (eps : List Endpoint) : Py (List (List String)) :=
  match eps with
  | [] => .ok []
  | ep :: rest => do
      let tagsCell ← pyJoin ", " ep.tags
      let rest' ← csvRowsLoop rest
      .ok ([ep.method, ep.path, pyStr ep.summary, tagsCell, pyStr ep.deprecated] :: rest')

/-- `OpenAPIExporter.export_endpoints_csv` (src/utils.py lines 198-218),
modelled as the list of written CSV records (header first). -/
def export_endpoints_csv (spec : List (String × Json)) : Py (List (List String)) := do
  let eps ← list_all_endpoints spec
  let rows ← csvRowsLoop eps
  .ok (csvHeader :: rows)

structure QueryParam where
  key : Json
  value : Json
  disabled : Bool
deriving DecidableEq

structure PostmanItem where
  name : Json
  method : String
  rawUrl : String
  host : List String
  pathSegs : List String
  query : Option (List QueryParam)
deriving DecidableEq

structure PostmanCollection where
  name : Json
  description : Json
  version : Json
  items : List PostmanItem
  vars : List (String × Json)
deriving DecidableEq

/-- The methods iterated by `generate_postman_collection` (note: two fewer
than `httpMethods`). -/
def postmanMethods : List String := ["get", "post", "put", "delete", "patch"]

/-- The query-parameter comprehension of `generate_postman_collection`. -/
def pmQueryLoop (ps : List Json) : Py (List QueryParam) :=
  match ps with
  | [] => .ok []
  | p :: rest => do
      let loc ← pyGet p "in" Json.null
      if loc = Json.str "query" then do
        let name ← pyIndexStr p "name"
        let req ← pyGet p "required" (Json.bool false)
        let rest' ← pmQueryLoop rest
        .ok (⟨name, Json.str "", !pyTruthy req⟩ :: rest')
      else
        pmQueryLoop rest

/-- Method loop of `generate_postman_collection` for one `(path, path_item)`
entry. -/
def pmMethodsLoop (path : String) (pathItem : Json) (ms : List String) :
    Py (List PostmanItem) :=
  match ms with
  | [] => .ok []
  | m :: rest => do
      let hit ← pyContainsStr pathItem m
      if hit then do
        let op ← pyIndexStr pathItem m
        let name ← pyGet op "summary" (Json.str (pyUpper m ++ " " ++ path))
        let params ← pyGet op "parameters" Json.null
        let query ←
          if pyTruthy params then do
            let paramsV ← pyIndexStr op "parameters"
            let ps ← pyIter paramsV
            let q ← pmQueryLoop ps
            (.ok (some q) : Py (Option (List QueryParam)))
          else
            (.ok none : Py (Option (List QueryParam)))
        let rest' ← pmMethodsLoop path pathItem rest
        .ok (⟨name, pyUpper m, "\x7b\x7bbase_url\x7d\x7d" ++ path,
              ["\x7b\x7bbase_url\x7d\x7d"], (strSplitSlash path).drop 1, query⟩ :: rest')
      else
        pmMethodsLoop path pathItem rest

def pmPathsLoop (items : List (String × Json)) : Py (List PostmanItem) :=
  match items with
  | [] => .ok []
  | (path, pathItem) :: rest => do
      let eps ← pmMethodsLoop path pathItem postmanMethods
      let rest' ← pmPathsLoop rest
      .ok (eps ++ rest')

/-- `OpenAPIExporter.generate_postman_collection` (src/utils.py lines
227-281), modelled as the written collection document. -/
def generate_postman_collection (spec : List (String × Json)) : Py PostmanCollection := do
  let info := dictGetD spec "info" (Json.obj [])
  let servers := dictGetD spec "servers" (Json.arr [])
  let baseUrl ←
    if pyTruthy servers then do
      let s0 ← pyIndexNat servers 0
      pyIndexStr s0 "url"
    else
      (.ok (Json.str "") : Py Json)
  let name ← pyGet info "title" (Json.str "API")
  let description ← pyGet info "description" (Json.str "")
  let version ← pyGet info "version" (Json.str "1.0.0")
  let collVars := if pyTruthy baseUrl then [("base_url", baseUrl)] else []
  let paths := dictGetD spec "paths" (Json.obj [])
  let items ← pyItems paths
  let pmItems ← pmPathsLoop items
  .ok ⟨name, description, version, pmItems, collVars⟩

/-! ## Basic lemmas about the embedding. -/

theorem ok_bind {α β : Type} (a : α) (f : α → Py β) : (Except.ok a >>= f) = f a := rfl

theorem error_bind {α β : Type} (e : PyErr) (f : α → Py β) :
    ((Except.error e : Py α) >>= f) = .error e := rfl

theorem bind_ok {α β : Type} {x : Py α} {f : α → Py β} {b : β} :
    (x >>= f) = .ok b ↔ ∃ a, x = .ok a ∧ f a = .ok b := by
  cases x <;> simp [Bind.bind, Except.bind]

theorem pyGet_ok_obj {j : Json} {k : String} {d v : Json} (h : pyGet j k d = .ok v) :
    ∃ kvs, j = .obj kvs ∧ v = dictGetD kvs k d := by
  cases j <;> simp [pyGet] at h <;> exact ⟨_, rfl, h.symm⟩

theorem lookupField_any {kvs : List (String × Json)} {k : String} {v : Json}
    (h : lookupField kvs k = some v) : kvs.any (fun p => p.1 == k) = true := by
  induction kvs with
  | nil => simp [lookupField] at h
  | cons hd tl ih =>
      obtain ⟨k', v'⟩ := hd
      by_cases hk : k' == k
      · simp [List.any_cons, hk]
      · simp only [lookupField, hk, if_neg, Bool.false_eq_true, ite_false] at h
        simp [List.any_cons, hk, ih h]

theorem pyIndexStr_cases (j : Json) (k : String) :
    (∃ v, pyIndexStr j k = .ok v) ∨
    pyIndexStr j k = .error .keyError ∨ pyIndexStr j k = .error .typeError := by
  cases j <;> simp [pyIndexStr]
  rcases lookupField _ k with _ | v <;> simp

/-! ## C5: the validator. -/

/-- Check 1 of spec §4.2: top-level `openapi` or `swagger` present. -/
def checkVersionKey (spec : List (String × Json)) : List String :=
  if lookupField spec "openapi" = none ∧ lookupField spec "swagger" = none
  then [errMissingOpenapi] else []

/-- Check 2 of spec §4.2: top-level `info` present and a mapping. -/
def checkInfoObject (spec : List (String × Json)) : List String :=
  match lookupField spec "info" with
  | none => [errMissingInfo]
  | some (Json.obj _) => []
  | some _ => [errInfoNotObject]

/-- Check 3 of spec §4.2: `info.title` present. -/
def checkInfoTitle (spec : List (String × Json)) : List String :=
  match lookupField spec "info" with
  | some (Json.obj ikvs) => if lookupField ikvs "title" = none then [errMissingTitle] else []
  | _ => []

/-- Check 4 of spec §4.2: `info.version` present. -/
def checkInfoVersion (spec : List (String × Json)) : List String :=
  match lookupField spec "info" with
  | some (Json.obj ikvs) => if lookupField ikvs "version" = none then [errMissingVersion] else []
  | _ => []

/-- Check 5 of spec §4.2: top-level `paths` present. -/
def checkPathsKey (spec : List (String × Json)) : List String :=
  if lookupField spec "paths" = none then [errMissingPaths] else []

/-- The five checks of spec §4.2 run in order, accumulating all failures. -/
def validatorChecks (spec : List (String × Json)) : List String :=
  checkVersionKey spec ++ checkInfoObject spec ++ checkInfoTitle spec ++
    checkInfoVersion spec ++ checkPathsKey spec

def exValidDoc : List (String × Json) :=
  [("openapi", .str "3.0.0"),
   ("info", .obj [("title", .str "T"), ("version", .str "1")]),
   ("paths", .obj [])]

def exNoVersionKeyDoc : List (String × Json) :=
  [("info", .obj [("title", .str "T"), ("version", .str "1")]),
   ("paths", .obj [])]

def exNoInfoDoc : List (String × Json) :=
  [("openapi", .str "3.0.0"), ("paths", .obj [])]

/-- C5: `is_valid_openapi` runs the five structural checks in order,
accumulating all failures without short-circuiting, and returns the pair
`(errors is empty, errors)`; being a total function of the document it never
raises. The three example documents behave as specified: the complete one is
valid with zero errors, the one missing `openapi`/`swagger` is invalid with
an error mentioning that key, and the one missing `info` is invalid with an
error mentioning `info`. -/
theorem C5_validator_checks :
    (∀ spec : List (String × Json),
        is_valid_openapi spec = ((validatorChecks spec).isEmpty, validatorChecks spec)) ∧
    is_valid_openapi exValidDoc = (true, []) ∧
    ((is_valid_openapi exNoVersionKeyDoc).1 = false ∧
      errMissingOpenapi ∈ (is_valid_openapi exNoVersionKeyDoc).2) ∧
    ((is_valid_openapi exNoInfoDoc).1 = false ∧
      errMissingInfo ∈ (is_valid_openapi exNoInfoDoc).2) := by
  refine ⟨?_, by decide, ⟨by decide, by decide⟩, ⟨by decide, by decide⟩⟩
  intro spec
  unfold is_valid_openapi validatorChecks checkVersionKey checkInfoObject
    checkInfoTitle checkInfoVersion checkPathsKey
  rcases h : lookupField spec "info" with _ | info
  · simp [h]
  · cases info <;> simp [h]

/-! ## C3 and C4: reference resolution. -/

/-- A document with a two-schema reference cycle: `A` points to `B`, `B`
points back to `A`. -/
def cycleDoc : List (String × Json) :=
  [("components", .obj
    [("schemas", .obj
      [("A", .obj [("$ref", .str "#/components/schemas/B")]),
       ("B", .obj [("$ref", .str "#/components/schemas/A")])])])]

/-- C3 counterexample: resolving a pointer on the `A`/`B` cycle does not fail
with any `RefCycle` condition — it succeeds and returns the referenced object
(which still contains its `$ref`). -/
theorem C3_cycle_counterexample :
    resolve_schema_reference cycleDoc "#/components/schemas/A" =
      .ok (some (Json.obj [("$ref", Json.str "#/components/schemas/B")])) := by
  decide

theorem descendLoop_cases (parts : List String) (obj : Json) :
    (∃ v, descendLoop obj parts = .ok v) ∨
    descendLoop obj parts = .error .keyError ∨
    descendLoop obj parts = .error .typeError := by
  induction parts generalizing obj with
  | nil => exact .inl ⟨obj, rfl⟩
  | cons p rest ih =>
      rcases pyIndexStr_cases obj p with ⟨v, hv⟩ | hv | hv
      · simpa [descendLoop, hv, ok_bind] using ih v
      · simp [descendLoop, hv, error_bind]
      · simp [descendLoop, hv, error_bind]

/-- C3 amended: reference resolution performs a single bounded
segment-by-segment descent; it never recurses into the resolved object, never
loops, and never raises (every failure is caught and mapped to an absent
result). On a reference cycle it does not fail with `RefCycle`: it returns
the immediately referenced object with its `$ref` intact. -/
theorem C3_resolution_bounded :
    (∀ (spec : List (String × Json)) (ref : String),
        ∃ r, resolve_schema_reference spec ref = .ok r) ∧
    resolve_schema_reference cycleDoc "#/components/schemas/A" =
      .ok (some (Json.obj [("$ref", Json.str "#/components/schemas/B")])) ∧
    resolve_schema_reference cycleDoc "#/components/schemas/B" =
      .ok (some (Json.obj [("$ref", Json.str "#/components/schemas/A")])) := by
  refine ⟨?_, by decide, by decide⟩
  intro spec ref
  unfold resolve_schema_reference
  by_cases h : strStartsWith ref "#/"
  · rcases descendLoop_cases (strSplitSlash ⟨ref.data.drop 2⟩) (Json.obj spec) with
      ⟨v, hv⟩ | hv | hv <;> simp [h, hv, tryKT, ok_bind, error_bind]
  · simp [h]

/-- C4 counterexample: `resolve_schema_reference` applied to a non-pointer
(inline) input does not return that input unchanged — it returns an absent
result. -/
theorem C4_inline_counterexample :
    resolve_schema_reference [] "inline" = .ok none ∧
    resolve_schema_reference [] "inline" ≠ .ok (some (Json.str "inline")) := by
  decide

/-- C4 amended: `resolve_schema_reference` accepts only local pointer strings;
for every document, an input that does not begin with `#/` yields an absent
result (None), not the input unchanged and not an error. -/
theorem C4_nonref_absent (spec : List (String × Json)) (ref : String)
    (h : strStartsWith ref "#/" = false) :
    resolve_schema_reference spec ref = .ok none := by
  unfold resolve_schema_reference
  simp [h]

theorem C4_nonref_absent_witness :
    strStartsWith "inline" "#/" = false ∧
    resolve_schema_reference [] "inline" = .ok none :=
  ⟨by decide, C4_nonref_absent [] "inline" (by decide)⟩

/-! ## C1 and C9: statistics and tag queries versus extraction. -/

/-- `sum(statistics(doc).methods.values())`. -/
def sumVals (m : List (String × Nat)) : Nat := (m.map Prod.snd).sum

theorem bumpCountS_sum (m : List (String × Nat)) (k : String) :
    sumVals (bumpCountS m k) = sumVals m + 1 := by
  induction m with
  | nil => simp [bumpCountS, sumVals]
  | cons hd tl ih =>
      obtain ⟨k', n⟩ := hd
      by_cases hk : k' == k <;> simp [bumpCountS, hk, sumVals] at ih ⊢ <;> omega

theorem statsList_methods (ms : List String) :
    ∀ (pathItem : Json) (path : String)
      (acc res : Nat × List (String × Nat) × List (Json × Nat)) (eps : List Endpoint),
    statsMethodsLoop pathItem ms acc = .ok res →
    listMethodsLoop path pathItem ms = .ok eps →
    res.1 = acc.1 + eps.length ∧ sumVals res.2.1 = sumVals acc.2.1 + eps.length := by
  induction ms with
  | nil =>
      intro pathItem path acc res eps h1 h2
      simp only [statsMethodsLoop, Except.ok.injEq] at h1
      simp only [listMethodsLoop, Except.ok.injEq] at h2
      simp [← h1, ← h2]
  | cons m rest ih =>
      intro pathItem path acc res eps h1 h2
      simp only [statsMethodsLoop] at h1
      simp only [listMethodsLoop] at h2
      rw [bind_ok] at h1 h2
      obtain ⟨hit, hhit, h1⟩ := h1
      obtain ⟨hit2, hhit2, h2⟩ := h2
      rw [hhit, Except.ok.injEq] at hhit2
      subst hhit2
      cases hit with
      | false =>
          simp only [Bool.false_eq_true, if_false] at h1 h2
          exact ih pathItem path acc res eps h1 h2
      | true =>
          obtain ⟨cnt, mc, tc⟩ := acc
          simp only [if_true] at h1 h2
          rw [bind_ok] at h1 h2
          obtain ⟨op, hop, h1⟩ := h1
          obtain ⟨op2, hop2, h2⟩ := h2
          rw [hop, Except.ok.injEq] at hop2
          subst hop2
          rw [bind_ok] at h1 h2
          obtain ⟨tv, htv, h1⟩ := h1
          obtain ⟨summ, hsumm, h2⟩ := h2
          rw [bind_ok] at h1 h2
          obtain ⟨ts, hts, h1⟩ := h1
          obtain ⟨tags, htags, h2⟩ := h2
          rw [bind_ok] at h1 h2
          obtain ⟨tc', htc', h1⟩ := h1
          obtain ⟨depr, hdepr, h2⟩ := h2
          rw [bind_ok] at h2
          obtain ⟨rest', hrest', h2⟩ := h2
          simp only [Except.ok.injEq] at h2
          subst h2
          obtain ⟨e1, e2⟩ := ih pathItem path (cnt + 1, bumpCountS mc m, tc') res rest' h1 hrest'
          simp only [List.length_cons]
          constructor
          · simpa using by omega
          · rw [e2]
            simp only [bumpCountS_sum]
            omega

theorem statsList_paths (items : List (String × Json)) :
    ∀ (acc res : Nat × List (String × Nat) × List (Json × Nat)) (l : List Endpoint),
    statsPathsLoop items acc = .ok res →
    listPathsLoop items = .ok l →
    res.1 = acc.1 + l.length ∧ sumVals res.2.1 = sumVals acc.2.1 + l.length := by
  induction items with
  | nil =>
      intro acc res l h1 h2
      simp only [statsPathsLoop, Except.ok.injEq] at h1
      simp only [listPathsLoop, Except.ok.injEq] at h2
      simp [← h1, ← h2]
  | cons hd tl ih =>
      intro acc res l h1 h2
      obtain ⟨path, pathItem⟩ := hd
      simp only [statsPathsLoop] at h1
      simp only [listPathsLoop] at h2
      rw [bind_ok] at h1 h2
      obtain ⟨acc', hacc', h1⟩ := h1
      obtain ⟨eps, heps, h2⟩ := h2
      rw [bind_ok] at h2
      obtain ⟨rest', hrest', h2⟩ := h2
      simp only [Except.ok.injEq] at h2
      subst h2
      obtain ⟨e1, e2⟩ := statsList_methods httpMethods pathItem path acc acc' eps hacc' heps
      obtain ⟨f1, f2⟩ := ih acc' res rest' h1 hrest'
      simp only [List.length_append]
      omega

/-- C1: for every document on which both functions succeed, the sum of the
per-method counts in `get_statistics` equals its `total_endpoints`, and both
equal the number of endpoints extracted by `list_all_endpoints`. -/
theorem C1_statistics_consistent (spec : List (String × Json)) (s : Statistics)
    (l : List Endpoint) (hs : get_statistics spec = .ok s)
    (hl : list_all_endpoints spec = .ok l) :
    sumVals s.methods = s.total_endpoints ∧ s.total_endpoints = l.length := by
  unfold get_statistics at hs
  unfold list_all_endpoints at hl
  rw [bind_ok] at hs hl
  obtain ⟨items, hitems, hs⟩ := hs
  obtain ⟨items2, hitems2, hl⟩ := hl
  rw [hitems, Except.ok.injEq] at hitems2
  subst hitems2
  rw [bind_ok] at hs hl
  obtain ⟨⟨cnt, mc, tc⟩, hloop, hs⟩ := hs
  obtain ⟨eps, heps, hl⟩ := hl
  simp only [Except.ok.injEq] at hl
  rw [bind_ok] at hs
  obtain ⟨title, _, hs⟩ := hs
  rw [bind_ok] at hs
  obtain ⟨version, _, hs⟩ := hs
  rw [bind_ok] at hs
  obtain ⟨sv, _, hs⟩ := hs
  rw [bind_ok] at hs
  obtain ⟨n1, _, hs⟩ := hs
  rw [bind_ok] at hs
  obtain ⟨ssv, _, hs⟩ := hs
  rw [bind_ok] at hs
  obtain ⟨n2, _, hs⟩ := hs
  simp only [Except.ok.injEq] at hs
  subst hs
  obtain ⟨e1, e2⟩ := statsList_paths items (0, [], []) (cnt, mc, tc) eps hloop heps
  have hlen : l.length = eps.length := by
    rw [← hl]
    exact (List.perm_insertionSort epOrder eps).length_eq
  simp only [sumVals] at e2 ⊢
  simp at e1 e2
  constructor
  · simp [e2, e1]
  · omega

/-- The end-to-end example document of spec §8: `/pets` with a tagged `get`
and `post`. -/
def petsDoc : List (String × Json) :=
  [("openapi", .str "3.0.0"),
   ("info", .obj [("title", .str "Pets"), ("version", .str "1.0")]),
   ("paths", .obj [("/pets", .obj [
       ("get", .obj [("summary", .str "List pets"), ("tags", .arr [.str "pets"])]),
       ("post", .obj [("tags", .arr [.str "pets"])])])])]

theorem C1_statistics_consistent_witness :
    sumVals ([("get", 1), ("post", 1)] : List (String × Nat)) = 2 ∧ (2 : Nat) = 2 := by
  have h := C1_statistics_consistent petsDoc
    ⟨.str "Pets", .str "1.0", 2, [("get", 1), ("post", 1)], [(.str "pets", 2)], 0, 0⟩
    [⟨"GET", "/pets", .str "List pets", .arr [.str "pets"], .bool false⟩,
     ⟨"POST", "/pets", .str "", .arr [.str "pets"], .bool false⟩]
    (by decide) (by decide)
  simpa using h

theorem findList_methods (ms : List String) :
    ∀ (tag path : String) (pathItem : Json) (f : List TaggedEndpoint) (eps : List Endpoint),
    findMethodsLoop tag path pathItem ms = .ok f →
    listMethodsLoop path pathItem ms = .ok eps →
    f.length ≤ eps.length := by
  induction ms with
  | nil =>
      intro tag path pathItem f eps h1 h2
      simp only [findMethodsLoop, Except.ok.injEq] at h1
      simp only [listMethodsLoop, Except.ok.injEq] at h2
      simp [← h1, ← h2]
  | cons m rest ih =>
      intro tag path pathItem f eps h1 h2
      simp only [findMethodsLoop] at h1
      simp only [listMethodsLoop] at h2
      rw [bind_ok] at h1 h2
      obtain ⟨hit, hhit, h1⟩ := h1
      obtain ⟨hit2, hhit2, h2⟩ := h2
      rw [hhit, Except.ok.injEq] at hhit2
      subst hhit2
      cases hit with
      | false =>
          simp only [Bool.false_eq_true, if_false] at h1 h2
          exact ih tag path pathItem f eps h1 h2
      | true =>
          simp only [if_true] at h1 h2
          rw [bind_ok] at h1 h2
          obtain ⟨op, hop, h1⟩ := h1
          obtain ⟨op2, hop2, h2⟩ := h2
          rw [hop, Except.ok.injEq] at hop2
          subst hop2
          rw [bind_ok] at h1 h2
          obtain ⟨tv, htv, h1⟩ := h1
          obtain ⟨summ, hsumm, h2⟩ := h2
          rw [bind_ok] at h1 h2
          obtain ⟨tagged, htagged, h1⟩ := h1
          obtain ⟨tags, htags, h2⟩ := h2
          rw [bind_ok] at h2
          obtain ⟨depr, hdepr, h2⟩ := h2
          rw [bind_ok] at h2
          obtain ⟨rest', hrest', h2⟩ := h2
          simp only [Except.ok.injEq] at h2
          subst h2
          cases tagged with
          | false =>
              simp only [Bool.false_eq_true, if_false] at h1
              have := ih tag path pathItem f rest' h1 hrest'
              simp only [List.length_cons]
              omega
          | true =>
              simp only [if_true] at h1
              rw [bind_ok] at h1
              obtain ⟨s2, hs2, h1⟩ := h1
              rw [bind_ok] at h1
              obtain ⟨d2, hd2, h1⟩ := h1
              rw [bind_ok] at h1
              obtain ⟨frest, hfrest, h1⟩ := h1
              simp only [Except.ok.injEq] at h1
              subst h1
              have := ih tag path pathItem frest rest' hfrest hrest'
              simp only [List.length_cons]
              omega

theorem findList_paths (items : List (String × Json)) :
    ∀ (tag : String) (f : List TaggedEndpoint) (l : List Endpoint),
    findPathsLoop tag items = .ok f →
    listPathsLoop items = .ok l →
    f.length ≤ l.length := by
  induction items with
  | nil =>
      intro tag f l h1 h2
      simp only [findPathsLoop, Except.ok.injEq] at h1
      simp only [listPathsLoop, Except.ok.injEq] at h2
      simp [← h1, ← h2]
  | cons hd tl ih =>
      intro tag f l h1 h2
      obtain ⟨path, pathItem⟩ := hd
      simp only [findPathsLoop] at h1
      simp only [listPathsLoop] at h2
      rw [bind_ok] at h1 h2
      obtain ⟨feps, hfeps, h1⟩ := h1
      obtain ⟨eps, heps, h2⟩ := h2
      rw [bind_ok] at h1 h2
      obtain ⟨frest, hfrest, h1⟩ := h1
      obtain ⟨rest', hrest', h2⟩ := h2
      simp only [Except.ok.injEq] at h1 h2
      subst h1
      subst h2
      have e1 := findList_methods httpMethods tag path pathItem feps eps hfeps heps
      have e2 := ih tag frest rest' hfrest hrest'
      simp only [List.length_append]
      omega

/-- C9: for every document and every tag string, whenever both queries
succeed, `find_endpoints_by_tag` returns at most as many endpoints as
`list_all_endpoints`. -/
theorem C9_find_by_tag_le (spec : List (String × Json)) (tag : String)
    (f : List TaggedEndpoint) (l : List Endpoint)
    (hf : find_endpoints_by_tag spec tag = .ok f)
    (hl : list_all_endpoints spec = .ok l) :
    f.length ≤ l.length := by
  unfold find_endpoints_by_tag at hf
  unfold list_all_endpoints at hl
  rw [bind_ok] at hf hl
  obtain ⟨items, hitems, hf⟩ := hf
  obtain ⟨items2, hitems2, hl⟩ := hl
  rw [hitems, Except.ok.injEq] at hitems2
  subst hitems2
  rw [bind_ok] at hl
  obtain ⟨eps, heps, hl⟩ := hl
  simp only [Except.ok.injEq] at hl
  have hlen : l.length = eps.length := by
    rw [← hl]
    exact (List.perm_insertionSort epOrder eps).length_eq
  rw [hlen]
  exact findList_paths items tag f eps hf heps

theorem C9_find_by_tag_le_witness :
    ([⟨"GET", "/pets", .str "List pets", .str ""⟩,
      ⟨"POST", "/pets", .str "", .str ""⟩] : List TaggedEndpoint).length ≤
    ([⟨"GET", "/pets", .str "List pets", .arr [.str "pets"], .bool false⟩,
      ⟨"POST", "/pets", .str "", .arr [.str "pets"], .bool false⟩] : List Endpoint).length :=
  C9_find_by_tag_le petsDoc "pets"
    [⟨"GET", "/pets", .str "List pets", .str ""⟩,
     ⟨"POST", "/pets", .str "", .str ""⟩]
    [⟨"GET", "/pets", .str "List pets", .arr [.str "pets"], .bool false⟩,
     ⟨"POST", "/pets", .str "", .arr [.str "pets"], .bool false⟩]
    (by decide) (by decide)

/-! ## C2: default tag bucket. -/

theorem keys_bumpCount (m : List (Json × Nat)) (k : Json) :
    (bumpCount m k).map Prod.fst =
      if k ∈ m.map Prod.fst then m.map Prod.fst else m.map Prod.fst ++ [k] := by
  induction m with
  | nil => simp [bumpCount]
  | cons hd tl ih =>
      obtain ⟨k', n⟩ := hd
      rcases Bool.eq_false_or_eq_true (k' == k) with hk | hk
      · have hk' : k' = k := by simpa using hk
        subst hk'
        simp [bumpCount, hk]
      · have hk' : ¬ k' = k := by simpa using hk
        simp only [bumpCount, hk, Bool.false_eq_true, if_false, List.map_cons, ih]
        by_cases hmem : k ∈ tl.map Prod.fst <;>
          simp [hmem, hk', Ne.symm hk']

theorem keys_bumpCount_self (m : List (Json × Nat)) (k : Json) :
    k ∈ (bumpCount m k).map Prod.fst := by
  rw [keys_bumpCount]
  by_cases hmem : k ∈ m.map Prod.fst <;> simp [hmem]

theorem keys_bumpCount_of {m : List (Json × Nat)} {x : Json} (k : Json)
    (h : x ∈ m.map Prod.fst) : x ∈ (bumpCount m k).map Prod.fst := by
  rw [keys_bumpCount]
  by_cases hmem : k ∈ m.map Prod.fst <;> simp [hmem, h]

theorem statsTagsLoop_mono (ts : List Json) :
    ∀ (tc tc' : List (Json × Nat)), statsTagsLoop ts tc = .ok tc' →
    ∀ x, x ∈ tc.map Prod.fst → x ∈ tc'.map Prod.fst := by
  induction ts with
  | nil =>
      intro tc tc' h x hx
      simp only [statsTagsLoop, Except.ok.injEq] at h
      simpa [← h] using hx
  | cons t rest ih =>
      intro tc tc' h x hx
      simp only [statsTagsLoop] at h
      rw [bind_ok] at h
      obtain ⟨tc₁, htc₁, h⟩ := h
      unfold pyBumpCount at htc₁
      by_cases hh : pyHashable t
      · simp only [hh, if_true, Except.ok.injEq] at htc₁
        subst htc₁
        exact ih _ _ h x (keys_bumpCount_of t hx)
      · simp [hh] at htc₁
  
theorem statsMethodsLoop_mono (ms : List String) :
    ∀ (pathItem : Json) (acc res : Nat × List (String × Nat) × List (Json × Nat)),
    statsMethodsLoop pathItem ms acc = .ok res →
    ∀ x, x ∈ acc.2.2.map Prod.fst → x ∈ res.2.2.map Prod.fst := by
  induction ms with
  | nil =>
      intro pathItem acc res h x hx
      simp only [statsMethodsLoop, Except.ok.injEq] at h
      simpa [← h] using hx
  | cons m rest ih =>
      intro pathItem acc res h x hx
      simp only [statsMethodsLoop] at h
      rw [bind_ok] at h
      obtain ⟨hit, hhit, h⟩ := h
      cases hit with
      | false =>
          simp only [Bool.false_eq_true, if_false] at h
          exact ih pathItem acc res h x hx
      | true =>
          obtain ⟨cnt, mc, tc⟩ := acc
          simp only [if_true] at h
          rw [bind_ok] at h
          obtain ⟨op, hop, h⟩ := h
          rw [bind_ok] at h
          obtain ⟨tv, htv, h⟩ := h
          rw [bind_ok] at h
          obtain ⟨ts, hts, h⟩ := h
          rw [bind_ok] at h
          obtain ⟨tc', htc', h⟩ := h
          exact ih pathItem _ res h x (statsTagsLoop_mono ts tc tc' htc' x hx)

theorem statsPathsLoop_mono (items : List (String × Json)) :
    ∀ (acc res : Nat × List (String × Nat) × List (Json × Nat)),
    statsPathsLoop items acc = .ok res →
    ∀ x, x ∈ acc.2.2.map Prod.fst → x ∈ res.2.2.map Prod.fst := by
  induction items with
  | nil =>
      intro acc res h x hx
      simp only [statsPathsLoop, Except.ok.injEq] at h
      simpa [← h] using hx
  | cons hd tl ih =>
      intro acc res h x hx
      obtain ⟨path, pathItem⟩ := hd
      simp only [statsPathsLoop] at h
      rw [bind_ok] at h
      obtain ⟨acc', hacc', h⟩ := h
      exact ih acc' res h x (statsMethodsLoop_mono httpMethods pathItem acc acc' hacc' x hx)

theorem statsMethodsLoop_untagged (ms : List String) :
    ∀ (pkvs okvs : List (String × Json)) (m : String)
      (acc res : Nat × List (String × Nat) × List (Json × Nat)),
    statsMethodsLoop (Json.obj pkvs) ms acc = .ok res →
    m ∈ ms →
    lookupField pkvs m = some (Json.obj okvs) →
    lookupField okvs "tags" = none →
    Json.str "untagged" ∈ res.2.2.map Prod.fst := by
  induction ms with
  | nil =>
      intro pkvs okvs m acc res h hm hop hnt
      exact absurd hm (List.not_mem_nil m)
  | cons m' rest ih =>
      intro pkvs okvs m acc res h hm hop hnt
      simp only [statsMethodsLoop] at h
      rw [bind_ok] at h
      obtain ⟨hit, hhit, h⟩ := h
      rcases List.mem_cons.mp hm with hm' | hm'
      · subst hm'
        have hhit' : hit = true := by
          simp only [pyContainsStr, Except.ok.injEq] at hhit
          rw [← hhit]
          exact lookupField_any hop
        subst hhit'
        obtain ⟨cnt, mc, tc⟩ := acc
        simp only [if_true] at h
        rw [bind_ok] at h
        obtain ⟨op, hop', h⟩ := h
        simp only [pyIndexStr, hop, Except.ok.injEq] at hop'
        subst hop'
        rw [bind_ok] at h
        obtain ⟨tv, htv, h⟩ := h
        simp only [pyGet, dictGetD, hnt, Option.getD, Except.ok.injEq] at htv
        subst htv
        rw [bind_ok] at h
        obtain ⟨ts, hts, h⟩ := h
        simp only [pyIter, Except.ok.injEq] at hts
        subst hts
        rw [bind_ok] at h
        obtain ⟨tc', htc', h⟩ := h
        simp only [statsTagsLoop, pyBumpCount, pyHashable, if_true, ok_bind,
          Except.ok.injEq] at htc'
        subst htc'
        exact statsMethodsLoop_mono rest (Json.obj pkvs) _ res h _
          (keys_bumpCount_self tc (Json.str "untagged"))
      · cases hit with
        | false =>
            simp only [Bool.false_eq_true, if_false] at h
            exact ih pkvs okvs m acc res h hm' hop hnt
        | true =>
            obtain ⟨cnt, mc, tc⟩ := acc
            simp only [if_true] at h
            rw [bind_ok] at h
            obtain ⟨op, _, h⟩ := h
            rw [bind_ok] at h
            obtain ⟨tv, _, h⟩ := h
            rw [bind_ok] at h
            obtain ⟨ts, _, h⟩ := h
            rw [bind_ok] at h
            obtain ⟨tc', _, h⟩ := h
            exact ih pkvs okvs m _ res h hm' hop hnt

theorem statsPathsLoop_untagged (items : List (String × Json)) :
    ∀ (path : String) (pkvs okvs : List (String × Json)) (m : String)
      (acc res : Nat × List (String × Nat) × List (Json × Nat)),
    statsPathsLoop items acc = .ok res →
    (path, Json.obj pkvs) ∈ items →
    m ∈ httpMethods →
    lookupField pkvs m = some (Json.obj okvs) →
    lookupField okvs "tags" = none →
    Json.str "untagged" ∈ res.2.2.map Prod.fst := by
  induction items with
  | nil =>
      intro path pkvs okvs m acc res h hmem hm hop hnt
      exact absurd hmem (List.not_mem_nil _)
  | cons hd tl ih =>
      intro path pkvs okvs m acc res h hmem hm hop hnt
      obtain ⟨p, pi⟩ := hd
      simp only [statsPathsLoop] at h
      rw [bind_ok] at h
      obtain ⟨acc', hacc', h⟩ := h
      rcases List.mem_cons.mp hmem with hmem' | hmem'
      · obtain ⟨hp, hpi⟩ := Prod.mk.injEq .. ▸ hmem'
        subst hp
        subst hpi
        have h1 := statsMethodsLoop_untagged httpMethods pkvs okvs m acc acc' hacc' hm hop hnt
        exact statsPathsLoop_mono tl acc' res h _ h1
      · exact ih path pkvs okvs m acc' res h hmem' hm hop hnt

theorem listMethodsLoop_hit (ms : List String) :
    ∀ (path : String) (pkvs okvs : List (String × Json)) (m : String) (eps : List Endpoint),
    listMethodsLoop path (Json.obj pkvs) ms = .ok eps →
    m ∈ ms →
    lookupField pkvs m = some (Json.obj okvs) →
    ∃ ep ∈ eps, ep.path = path ∧ ep.method = pyUpper m ∧
      ep.tags = dictGetD okvs "tags" (Json.arr []) := by
  induction ms with
  | nil =>
      intro path pkvs okvs m eps h hm hop
      exact absurd hm (List.not_mem_nil m)
  | cons m' rest ih =>
      intro path pkvs okvs m eps h hm hop
      simp only [listMethodsLoop] at h
      rw [bind_ok] at h
      obtain ⟨hit, hhit, h⟩ := h
      rcases List.mem_cons.mp hm with hm' | hm'
      · subst hm'
        have hhit' : hit = true := by
          simp only [pyContainsStr, Except.ok.injEq] at hhit
          rw [← hhit]
          exact lookupField_any hop
        subst hhit'
        simp only [if_true] at h
        rw [bind_ok] at h
        obtain ⟨op, hop', h⟩ := h
        simp only [pyIndexStr, hop, Except.ok.injEq] at hop'
        subst hop'
        rw [bind_ok] at h
        obtain ⟨summ, hsumm, h⟩ := h
        simp only [pyGet, Except.ok.injEq] at hsumm
        subst hsumm
        rw [bind_ok] at h
        obtain ⟨tags, htags, h⟩ := h
        simp only [pyGet, Except.ok.injEq] at htags
        subst htags
        rw [bind_ok] at h
        obtain ⟨depr, hdepr, h⟩ := h
        rw [bind_ok] at h
        obtain ⟨rest', hrest', h⟩ := h
        simp only [Except.ok.injEq] at h
        subst h
        exact ⟨_, List.mem_cons_self _ _, rfl, rfl, rfl⟩
      · cases hit with
        | false =>
            simp only [Bool.false_eq_true, if_false] at h
            exact ih path pkvs okvs m eps h hm' hop
        | true =>
            simp only [if_true] at h
            rw [bind_ok] at h
            obtain ⟨op, _, h⟩ := h
            rw [bind_ok] at h
            obtain ⟨summ, _, h⟩ := h
            rw [bind_ok] at h
            obtain ⟨tags, _, h⟩ := h
            rw [bind_ok] at h
            obtain ⟨depr, _, h⟩ := h
            rw [bind_ok] at h
            obtain ⟨rest', hrest', h⟩ := h
            simp only [Except.ok.injEq] at h
            subst h
            obtain ⟨ep, hmem, hp, hme, ht⟩ := ih path pkvs okvs m rest' hrest' hm' hop
            exact ⟨ep, List.mem_cons_of_mem _ hmem, hp, hme, ht⟩

theorem listPathsLoop_hit (items : List (String × Json)) :
    ∀ (path : String) (pkvs okvs : List (String × Json)) (m : String) (l : List Endpoint),
    listPathsLoop items = .ok l →
    (path, Json.obj pkvs) ∈ items →
    m ∈ httpMethods →
    lookupField pkvs m = some (Json.obj okvs) →
    ∃ ep ∈ l, ep.path = path ∧ ep.method = pyUpper m ∧
      ep.tags = dictGetD okvs "tags" (Json.arr []) := by
  induction items with
  | nil =>
      intro path pkvs okvs m l h hmem hm hop
      exact absurd hmem (List.not_mem_nil _)
  | cons hd tl ih =>
      intro path pkvs okvs m l h hmem hm hop
      obtain ⟨p, pi⟩ := hd
      simp only [listPathsLoop] at h
      rw [bind_ok] at h
      obtain ⟨eps, heps, h⟩ := h
      rw [bind_ok] at h
      obtain ⟨rest', hrest', h⟩ := h
      simp only [Except.ok.injEq] at h
      subst h
      rcases List.mem_cons.mp hmem with hmem' | hmem'
      · obtain ⟨hp, hpi⟩ := Prod.mk.injEq .. ▸ hmem'
        subst hp
        subst hpi
        obtain ⟨ep, hmem2, hrest2⟩ := listMethodsLoop_hit httpMethods path pkvs okvs m eps heps hm hop
        exact ⟨ep, List.mem_append_left _ hmem2, hrest2⟩
      · obtain ⟨ep, hmem2, hrest2⟩ := ih path pkvs okvs m rest' hrest' hmem' hm hop
        exact ⟨ep, List.mem_append_right _ hmem2, hrest2⟩

/-- A document whose single operation has no `tags` key. -/
def untaggedDoc : List (String × Json) :=
  [("paths", .obj [("/a", .obj [("get", .obj [])])])]

/-- A document whose single operation has a present-but-empty `tags` list. -/
def emptyTagsDoc : List (String × Json) :=
  [("paths", .obj [("/a", .obj [("get", .obj [("tags", .arr [])])])])]

/-- C2 counterexample: extraction does not assign the default tag bucket — the
endpoint extracted from an operation without a `tags` key has the empty tag
list, so not every extracted endpoint's tags set is non-empty; moreover an
operation with a present-but-empty tag list is counted by `get_statistics`
under no bucket at all, so the default bucket does not appear in its
statistics. -/
theorem C2_untagged_counterexample :
    list_all_endpoints untaggedDoc =
      .ok [⟨"GET", "/a", .str "", .arr [], .bool false⟩] ∧
    get_statistics emptyTagsDoc =
      .ok ⟨.str "Unknown", .str "Unknown", 1, [("get", 1)], [], 0, 0⟩ := by
  decide

/-- C2 amended: for every document and every operation reachable at some
`(path, method)` whose `tags` key is absent, `get_statistics` counts it under
the single-element default bucket `"untagged"`, which therefore appears among
the keys of `statistics(doc).tags`; extraction (`list_all_endpoints`) does
not apply the default — the corresponding extracted endpoint carries the
empty tag list. (An operation with a present-but-empty tag list contributes
to no bucket; see the counterexample.) -/
theorem C2_untagged_default (spec : List (String × Json))
    (pitems : List (String × Json)) (path : String)
    (pkvs okvs : List (String × Json)) (m : String)
    (s : Statistics) (l : List Endpoint)
    (hpaths : dictGetD spec "paths" (Json.obj []) = Json.obj pitems)
    (hmem : (path, Json.obj pkvs) ∈ pitems)
    (hm : m ∈ httpMethods)
    (hop : lookupField pkvs m = some (Json.obj okvs))
    (hnt : lookupField okvs "tags" = none)
    (hs : get_statistics spec = .ok s)
    (hl : list_all_endpoints spec = .ok l) :
    Json.str "untagged" ∈ s.tags.map Prod.fst ∧
    ∃ ep ∈ l, ep.path = path ∧ ep.method = pyUpper m ∧ ep.tags = Json.arr [] := by
  unfold get_statistics at hs
  unfold list_all_endpoints at hl
  rw [hpaths] at hs hl
  simp only [pyItems, ok_bind] at hs hl
  rw [bind_ok] at hs hl
  obtain ⟨⟨cnt, mc, tc⟩, hloop, hs⟩ := hs
  obtain ⟨eps, heps, hl⟩ := hl
  simp only [Except.ok.injEq] at hl
  rw [bind_ok] at hs
  obtain ⟨title, _, hs⟩ := hs
  rw [bind_ok] at hs
  obtain ⟨version, _, hs⟩ := hs
  rw [bind_ok] at hs
  obtain ⟨sv, _, hs⟩ := hs
  rw [bind_ok] at hs
  obtain ⟨n1, _, hs⟩ := hs
  rw [bind_ok] at hs
  obtain ⟨ssv, _, hs⟩ := hs
  rw [bind_ok] at hs
  obtain ⟨n2, _, hs⟩ := hs
  simp only [Except.ok.injEq] at hs
  subst hs
  constructor
  · exact statsPathsLoop_untagged pitems path pkvs okvs m (0, [], []) (cnt, mc, tc)
      hloop hmem hm hop hnt
  · obtain ⟨ep, hmem2, hp, hme, ht⟩ :=
      listPathsLoop_hit pitems path pkvs okvs m eps heps hmem hm hop
    refine ⟨ep, ?_, hp, hme, ?_⟩
    · rw [← hl]
      exact ((List.perm_insertionSort epOrder eps).mem_iff).mpr hmem2
    · rw [ht]
      simp [dictGetD, hnt]

theorem C2_untagged_default_witness :
    Json.str "untagged" ∈ ([(Json.str "untagged", 1)] : List (Json × Nat)).map Prod.fst ∧
    ∃ ep ∈ ([⟨"GET", "/a", .str "", .arr [], .bool false⟩] : List Endpoint),
      ep.path = "/a" ∧ ep.method = pyUpper "get" ∧ ep.tags = Json.arr [] :=
  C2_untagged_default untaggedDoc [("/a", .obj [("get", .obj [])])] "/a"
    [("get", .obj [])] [] "get"
    ⟨.str "Unknown", .str "Unknown", 1, [("get", 1)], [(.str "untagged", 1)], 0, 0⟩
    [⟨"GET", "/a", .str "", .arr [], .bool false⟩]
    (by decide) (by decide) (by decide) (by decide) (by decide) (by decide) (by decide)

/-! ## C8: request-body schema lookup. -/

theorem lookupField_none_any {kvs : List (String × Json)} {k : String}
    (h : lookupField kvs k = none) : kvs.any (fun p => p.1 == k) = false := by
  induction kvs with
  | nil => simp
  | cons hd tl ih =>
      obtain ⟨k', v⟩ := hd
      rcases Bool.eq_false_or_eq_true (k' == k) with hk | hk
      · simp [lookupField, hk] at h
      · simp only [lookupField, hk, Bool.false_eq_true, if_false] at h
        simp [List.any_cons, hk, ih h]

theorem rbContentLoop_none (ckvs : List (String × Json))
    (h : ∀ p ∈ ckvs, pyContainsStr p.2 "schema" = .ok false) :
    rbContentLoop ckvs = .ok none := by
  induction ckvs with
  | nil => rfl
  | cons hd tl ih =>
      obtain ⟨ct, cd⟩ := hd
      have h0 := h (ct, cd) (List.mem_cons_self _ _)
      simp only [rbContentLoop, h0, ok_bind, Bool.false_eq_true, if_false]
      exact ih (fun p hp => h p (List.mem_cons_of_mem _ hp))

theorem rbContentLoop_first (pre : List (String × Json)) :
    ∀ (ct : String) (cd : List (String × Json)) (rest : List (String × Json)) (sch : Json),
    (∀ p ∈ pre, pyContainsStr p.2 "schema" = .ok false) →
    lookupField cd "schema" = some sch →
    rbContentLoop (pre ++ (ct, Json.obj cd) :: rest) = .ok (some sch) := by
  induction pre with
  | nil =>
      intro ct cd rest sch _ hsch
      simp only [List.nil_append, rbContentLoop, pyContainsStr,
        lookupField_any hsch, ok_bind, if_true]
      simp [pyIndexStr, hsch, ok_bind]
  | cons hd tl ih =>
      intro ct cd rest sch h hsch
      obtain ⟨ct', cd'⟩ := hd
      have h0 := h (ct', cd') (List.mem_cons_self _ _)
      simp only [List.cons_append, rbContentLoop, h0, ok_bind, Bool.false_eq_true, if_false]
      exact ih ct cd rest sch (fun p hp => h p (List.mem_cons_of_mem _ hp)) hsch

/-- C8: `get_request_body_schema` returns the schema of the first-declared
content entry that carries one (document order is the tie-break), and returns
an absent value — not an error — when the `(path, method)` pair does not
exist in the document (the chained subscription fails), when the endpoint has
no request body, or when no content entry carries a schema. -/
theorem C8_request_body_schema :
    (∀ (spec : List (String × Json)) (path method : String),
        (opLookup spec path (pyLower method) = .error .keyError ∨
         opLookup spec path (pyLower method) = .error .typeError) →
        get_request_body_schema spec path method = .ok none) ∧
    (∀ (spec : List (String × Json)) (path method : String)
       (okvs : List (String × Json)),
        opLookup spec path (pyLower method) = .ok (Json.obj okvs) →
        lookupField okvs "requestBody" = none →
        get_request_body_schema spec path method = .ok none) ∧
    (∀ (spec : List (String × Json)) (path method : String)
       (okvs rbkvs ckvs : List (String × Json)),
        opLookup spec path (pyLower method) = .ok (Json.obj okvs) →
        dictGetD okvs "requestBody" (Json.obj []) = Json.obj rbkvs →
        dictGetD rbkvs "content" (Json.obj []) = Json.obj ckvs →
        (∀ p ∈ ckvs, pyContainsStr p.2 "schema" = .ok false) →
        get_request_body_schema spec path method = .ok none) ∧
    (∀ (spec : List (String × Json)) (path method : String)
       (okvs rbkvs : List (String × Json)) (pre : List (String × Json))
       (ct : String) (cd rest : List (String × Json)) (sch : Json),
        opLookup spec path (pyLower method) = .ok (Json.obj okvs) →
        dictGetD okvs "requestBody" (Json.obj []) = Json.obj rbkvs →
        dictGetD rbkvs "content" (Json.obj []) =
          Json.obj (pre ++ (ct, Json.obj cd) :: rest) →
        (∀ p ∈ pre, pyContainsStr p.2 "schema" = .ok false) →
        lookupField cd "schema" = some sch →
        get_request_body_schema spec path method = .ok (some sch)) := by
  refine ⟨?_, ?_, ?_, ?_⟩
  · intro spec path method h
    rcases h with h | h <;>
      simp [get_request_body_schema, h, error_bind, tryKT]
  · intro spec path method okvs hop hnorb
    simp [get_request_body_schema, hop, ok_bind, pyGet, dictGetD, hnorb, Option.getD,
      lookupField, pyItems, rbContentLoop, tryKT]
  · intro spec path method okvs rbkvs ckvs hop hrb hct hnone
    simp only [get_request_body_schema, hop, ok_bind, pyGet, hrb, hct, pyItems,
      rbContentLoop_none ckvs hnone, tryKT]
  · intro spec path method okvs rbkvs pre ct cd rest sch hop hrb hct hpre hsch
    simp only [get_request_body_schema, hop, ok_bind, pyGet, hrb, hct, pyItems,
      rbContentLoop_first pre ct cd rest sch hpre hsch, tryKT]

def rbNoBodyDoc : List (String × Json) :=
  [("paths", .obj [("/x", .obj [("get", .obj [])])])]

def rbNoSchemaDoc : List (String × Json) :=
  [("paths", .obj [("/x", .obj [("get", .obj
    [("requestBody", .obj [("content", .obj [("text/plain", .obj [])])])])])])]

def rbTwoContentDoc : List (String × Json) :=
  [("paths", .obj [("/x", .obj [("post", .obj
    [("requestBody", .obj [("content", .obj
      [("text/plain", .obj []),
       ("application/json", .obj [("schema", .obj [("type", .str "object")])])])])])])])]

theorem C8_request_body_schema_witness :
    get_request_body_schema [] "/x" "GET" = .ok none ∧
    get_request_body_schema rbNoBodyDoc "/x" "GET" = .ok none ∧
    get_request_body_schema rbNoSchemaDoc "/x" "GET" = .ok none ∧
    get_request_body_schema rbTwoContentDoc "/x" "POST" =
      .ok (some (Json.obj [("type", Json.str "object")])) :=
  ⟨C8_request_body_schema.1 [] "/x" "GET" (Or.inl (by decide)),
   C8_request_body_schema.2.1 rbNoBodyDoc "/x" "GET" [] (by decide) (by decide),
   C8_request_body_schema.2.2.1 rbNoSchemaDoc "/x" "GET"
     [("requestBody", .obj [("content", .obj [("text/plain", .obj [])])])]
     [("content", .obj [("text/plain", .obj [])])]
     [("text/plain", .obj [])]
     (by decide) (by decide) (by decide) (by decide),
   C8_request_body_schema.2.2.2 rbTwoContentDoc "/x" "POST"
     [("requestBody", .obj [("content", .obj
       [("text/plain", .obj []),
        ("application/json", .obj [("schema", .obj [("type", .str "object")])])])])]
     [("content", .obj
       [("text/plain", .obj []),
        ("application/json", .obj [("schema", .obj [("type", .str "object")])])])]
     [("text/plain", .obj [])] "application/json"
     [("schema", .obj [("type", .str "object")])] [] (.obj [("type", .str "object")])
     (by decide) (by decide) (by decide) (by decide) (by decide)⟩

/-! ## C10: response schemas. -/

theorem keys_dictInsert (m : List (String × Json)) (k : String) (v : Json) :
    (dictInsert m k v).map Prod.fst =
      if k ∈ m.map Prod.fst then m.map Prod.fst else m.map Prod.fst ++ [k] := by
  induction m with
  | nil => simp [dictInsert]
  | cons hd tl ih =>
      obtain ⟨k', v'⟩ := hd
      rcases Bool.eq_false_or_eq_true (k' == k) with hk | hk
      · have hk' : k' = k := by simpa using hk
        subst hk'
        simp [dictInsert, hk]
      · have hk' : ¬ k' = k := by simpa using hk
        simp only [dictInsert, hk, Bool.false_eq_true, if_false, List.map_cons, ih]
        by_cases hmem : k ∈ tl.map Prod.fst <;>
          simp [hmem, hk', Ne.symm hk']

theorem nodup_dictInsert {m : List (String × Json)} (k : String) (v : Json)
    (h : (m.map Prod.fst).Nodup) : ((dictInsert m k v).map Prod.fst).Nodup := by
  rw [keys_dictInsert]
  by_cases hmem : k ∈ m.map Prod.fst
  · simpa [hmem] using h
  · simp [hmem, List.nodup_append, h]

theorem respContentLoop_nodup (status : String) (ckvs : List (String × Json)) :
    ∀ (acc res : List (String × Json)),
    respContentLoop status ckvs acc = .ok res →
    (acc.map Prod.fst).Nodup → (res.map Prod.fst).Nodup := by
  induction ckvs with
  | nil =>
      intro acc res h hn
      simp only [respContentLoop, Except.ok.injEq] at h
      simpa [← h] using hn
  | cons hd tl ih =>
      intro acc res h hn
      obtain ⟨ct, cd⟩ := hd
      simp only [respContentLoop] at h
      rw [bind_ok] at h
      obtain ⟨has, hhas, h⟩ := h
      cases has with
      | false =>
          simp only [Bool.false_eq_true, if_false] at h
          exact ih acc res h hn
      | true =>
          simp only [if_true] at h
          rw [bind_ok] at h
          obtain ⟨s, hks, h⟩ := h
          exact ih _ res h (nodup_dictInsert status s hn)

theorem respLoop_nodup (rkvs : List (String × Json)) :
    ∀ (acc res : List (String × Json)),
    respLoop rkvs acc = .ok res →
    (acc.map Prod.fst).Nodup → (res.map Prod.fst).Nodup := by
  induction rkvs with
  | nil =>
      intro acc res h hn
      simp only [respLoop, Except.ok.injEq] at h
      simpa [← h] using hn
  | cons hd tl ih =>
      intro acc res h hn
      obtain ⟨status, resp⟩ := hd
      simp only [respLoop] at h
      rw [bind_ok] at h
      obtain ⟨content, _, h⟩ := h
      rw [bind_ok] at h
      obtain ⟨ckvs, _, h⟩ := h
      rw [bind_ok] at h
      obtain ⟨acc', hacc', h⟩ := h
      exact ih acc' res h (respContentLoop_nodup status ckvs acc acc' hacc' hn)

theorem tryKT_ok {α : Type} {x : Py α} {d r : α} (h : tryKT x d = .ok r) :
    x = .ok r ∨ ((x = .error .keyError ∨ x = .error .typeError) ∧ r = d) := by
  cases x with
  | ok a =>
      simp only [tryKT, Except.ok.injEq] at h
      exact .inl (by rw [h])
  | error e =>
      cases e <;> simp only [tryKT, Except.ok.injEq] at h <;> simp [h]

/-- The schema of the last-declared content entry carrying one (`none` when no
entry carries a schema): the specification-level description of the overwrite
behaviour of `get_response_schemas` for one status. -/
def lastSchema (ckvs : List (String × Json)) : Option Json :=
  (ckvs.filterMap (fun p =>
    match p.2 with
    | Json.obj cd => lookupField cd "schema"
    | _ => none)).getLast?

theorem dictInsert_dictInsert (m : List (String × Json)) (k : String) (v w : Json) :
    dictInsert (dictInsert m k v) k w = dictInsert m k w := by
  induction m with
  | nil => simp [dictInsert]
  | cons hd tl ih =>
      obtain ⟨k', v'⟩ := hd
      rcases Bool.eq_false_or_eq_true (k' == k) with hk | hk
      · have hk' : k' = k := by simpa using hk
        subst hk'
        simp [dictInsert, hk]
      · simp [dictInsert, hk, ih]

theorem getLast?_cons_eq {α : Type} (a : α) (l : List α) :
    (a :: l).getLast? = some (l.getLast?.getD a) := by
  induction l generalizing a with
  | nil => rfl
  | cons b bs ih =>
      rw [List.getLast?_cons_cons, ih b]
      simp

theorem respContentLoop_last (status : String) (ckvs : List (String × Json)) :
    ∀ (acc : List (String × Json)),
    (∀ p ∈ ckvs, ∃ cd, p.2 = Json.obj cd) →
    respContentLoop status ckvs acc =
      .ok (match lastSchema ckvs with
           | some s => dictInsert acc status s
           | none => acc) := by
  induction ckvs with
  | nil =>
      intro acc _
      rfl
  | cons hd rest ih =>
      intro acc h
      obtain ⟨ct, cdj⟩ := hd
      obtain ⟨cd, hcd⟩ := h (ct, cdj) (List.mem_cons_self _ _)
      simp only at hcd
      subst hcd
      rcases hs : lookupField cd "schema" with _ | s
      · have hany := lookupField_none_any hs
        have hl : lastSchema ((ct, Json.obj cd) :: rest) = lastSchema rest := by
          simp [lastSchema, List.filterMap_cons, hs]
        rw [hl]
        simp only [respContentLoop, pyContainsStr, hany, ok_bind, Bool.false_eq_true,
          if_false]
        exact ih acc (fun p hp => h p (List.mem_cons_of_mem _ hp))
      · have hany := lookupField_any hs
        have hl : lastSchema ((ct, Json.obj cd) :: rest) =
            some ((lastSchema rest).getD s) := by
          simp only [lastSchema, List.filterMap_cons, hs]
          exact getLast?_cons_eq s _
        simp only [respContentLoop, pyContainsStr, hany, ok_bind, if_true,
          pyIndexStr, hs]
        rw [ih (dictInsert acc status s) (fun p hp => h p (List.mem_cons_of_mem _ hp))]
        rw [hl]
        rcases hrest : lastSchema rest with _ | s' <;> simp [hrest]
        exact dictInsert_dictInsert acc status s s'

/-- C10: `get_response_schemas` returns a mapping with at most one schema per
status (its keys are duplicate-free); when the chained `(path, method)`
subscription fails — the pair is absent or the path item is not a mapping —
it returns the empty mapping rather than raising; and for a response that
declares schemas under several content types, the schema of the
last-declared content entry overwrites the earlier ones for that status. -/
theorem C10_response_schemas :
    (∀ (spec : List (String × Json)) (path method : String)
       (res : List (String × Json)),
        get_response_schemas spec path method = .ok res →
        (res.map Prod.fst).Nodup) ∧
    (∀ (spec : List (String × Json)) (path method : String),
        (opLookup spec path (pyLower method) = .error .keyError ∨
         opLookup spec path (pyLower method) = .error .typeError) →
        get_response_schemas spec path method = .ok []) ∧
    (∀ (spec : List (String × Json)) (path method : String)
       (okvs : List (String × Json)) (status : String)
       (respkvs ckvs : List (String × Json)),
        opLookup spec path (pyLower method) = .ok (Json.obj okvs) →
        dictGetD okvs "responses" (Json.obj []) = Json.obj [(status, Json.obj respkvs)] →
        dictGetD respkvs "content" (Json.obj []) = Json.obj ckvs →
        (∀ p ∈ ckvs, ∃ cd, p.2 = Json.obj cd) →
        get_response_schemas spec path method =
          .ok (match lastSchema ckvs with
               | some s => [(status, s)]
               | none => [])) := by
  refine ⟨?_, ?_, ?_⟩
  · intro spec path method res h
    unfold get_response_schemas at h
    rcases tryKT_ok h with hb | ⟨_, hr⟩
    · rw [bind_ok] at hb
      obtain ⟨op, _, hb⟩ := hb
      rw [bind_ok] at hb
      obtain ⟨responses, _, hb⟩ := hb
      rw [bind_ok] at hb
      obtain ⟨rkvs, _, hb⟩ := hb
      exact respLoop_nodup rkvs [] res hb (by simp)
    · simp [hr]
  · intro spec path method h
    rcases h with h | h <;>
      simp [get_response_schemas, h, error_bind, tryKT]
  · intro spec path method okvs status respkvs ckvs hop hresp hct hcd
    have hloop := respContentLoop_last status ckvs [] hcd
    simp only [get_response_schemas, hop, ok_bind, pyGet, hresp, pyItems, respLoop,
      hct, hloop]
    rcases hls : lastSchema ckvs with _ | s <;>
      simp [hls, tryKT, respLoop, dictInsert]

def respTwoContentDoc : List (String × Json) :=
  [("paths", .obj [("/x", .obj [("get", .obj [("responses", .obj [("200", .obj
    [("content", .obj
      [("text/plain", .obj [("schema", .obj [("type", .str "string")])]),
       ("application/json", .obj [("schema", .obj [("type", .str "object")])])])])])])])])]

theorem C10_response_schemas_witness :
    (([("200", Json.obj [("type", Json.str "object")])].map
        (Prod.fst (α := String) (β := Json))).Nodup) ∧
    get_response_schemas [] "/x" "GET" = .ok [] ∧
    get_response_schemas respTwoContentDoc "/x" "GET" =
      .ok [("200", Json.obj [("type", Json.str "object")])] :=
  ⟨C10_response_schemas.1 respTwoContentDoc "/x" "GET"
     [("200", Json.obj [("type", Json.str "object")])] (by decide),
   C10_response_schemas.2.1 [] "/x" "GET" (Or.inl (by decide)),
   C10_response_schemas.2.2 respTwoContentDoc "/x" "GET"
     [("responses", .obj [("200", .obj
       [("content", .obj
         [("text/plain", .obj [("schema", .obj [("type", .str "string")])]),
          ("application/json", .obj [("schema", .obj [("type", .str "object")])])])])])]
     "200"
     [("content", .obj
       [("text/plain", .obj [("schema", .obj [("type", .str "string")])]),
        ("application/json", .obj [("schema", .obj [("type", .str "object")])])])]
     [("text/plain", .obj [("schema", .obj [("type", .str "string")])]),
      ("application/json", .obj [("schema", .obj [("type", .str "object")])])]
     (by decide) (by decide) (by decide)
     (by
       intro p hp
       rcases List.mem_cons.mp hp with rfl | hp2
       · exact ⟨_, rfl⟩
       · rcases List.mem_cons.mp hp2 with rfl | hp3
         · exact ⟨_, rfl⟩
         · exact absurd hp3 (List.not_mem_nil p))⟩

/-! ## C7: CSV export. -/

theorem listLtChar_trichotomy : ∀ (as bs : List Char),
    listLtChar as bs = true ∨ as = bs ∨ listLtChar bs as = true
  | [], [] => .inr (.inl rfl)
  | [], _ :: _ => .inl rfl
  | _ :: _, [] => .inr (.inr rfl)
  | a :: as, b :: bs => by
      rcases lt_trichotomy a b with h | h | h
      · left
        simp [listLtChar, h]
      · subst h
        rcases listLtChar_trichotomy as bs with h2 | h2 | h2
        · left
          simp [listLtChar, lt_irrefl, h2]
        · right
          left
          rw [h2]
        · right
          right
          simp [listLtChar, lt_irrefl, h2]
      · right
        right
        simp [listLtChar, h]

theorem listLtChar_trans : ∀ (as bs cs : List Char),
    listLtChar as bs = true → listLtChar bs cs = true → listLtChar as cs = true
  | [], [], _ => by simp [listLtChar]
  | [], _ :: _, [] => by simp [listLtChar]
  | [], _ :: _, _ :: _ => by simp [listLtChar]
  | _ :: _, [], _ => by simp [listLtChar]
  | _ :: _, _ :: _, [] => by simp [listLtChar]
  | a :: as, b :: bs, c :: cs => by
      intro h1 h2
      simp only [listLtChar] at h1 h2 ⊢
      by_cases hab : a < b
      · by_cases hbc : b < c
        · simp [lt_trans hab hbc]
        · by_cases hcb : c < b
          · simp [hbc, hcb] at h2
          · have hbc' : b = c := le_antisymm (not_lt.mp hcb) (not_lt.mp hbc)
            subst hbc'
            simp [hab]
      · by_cases hba : b < a
        · simp [hab, hba] at h1
        · have hab' : a = b := le_antisymm (not_lt.mp hba) (not_lt.mp hab)
          subst hab'
          simp only [lt_irrefl, if_false] at h1
          by_cases hac : a < c
          · simp [hac]
          · by_cases hca : c < a
            · simp [hac, hca] at h2
            · have hac' : a = c := le_antisymm (not_lt.mp hca) (not_lt.mp hac)
              subst hac'
              simp only [lt_irrefl, if_false] at h2 ⊢
              exact listLtChar_trans as bs cs h1 h2

theorem strLt_trans {a b c : String} (h1 : strLt a b = true) (h2 : strLt b c = true) :
    strLt a c = true :=
  listLtChar_trans a.data b.data c.data h1 h2

theorem strLt_trichotomy (a b : String) : strLt a b = true ∨ a = b ∨ strLt b a = true := by
  rcases listLtChar_trichotomy a.data b.data with h | h | h
  · exact .inl h
  · refine .inr (.inl ?_)
    cases a
    cases b
    exact congrArg String.mk h
  · exact .inr (.inr h)

theorem epLe_total (a b : Endpoint) : epLe a b = true ∨ epLe b a = true := by
  unfold epLe
  rcases strLt_trichotomy a.path b.path with h | h | h
  · left
    simp [h]
  · rcases strLt_trichotomy a.method b.method with h2 | h2 | h2
    · left
      simp [h, h2]
    · left
      simp [h, h2]
    · right
      simp [h, h2]
  · right
    simp [h]

theorem epLe_trans (a b c : Endpoint) (h1 : epLe a b = true) (h2 : epLe b c = true) :
    epLe a c = true := by
  unfold epLe at h1 h2 ⊢
  simp only [Bool.or_eq_true, Bool.and_eq_true, beq_iff_eq] at h1 h2 ⊢
  rcases h1 with h1 | ⟨hp1, hm1⟩
  · rcases h2 with h2 | ⟨hp2, _⟩
    · exact .inl (strLt_trans h1 h2)
    · rw [← hp2]
      exact .inl h1
  · rcases h2 with h2 | ⟨hp2, hm2⟩
    · rw [hp1]
      exact .inl h2
    · refine .inr ⟨hp1.trans hp2, ?_⟩
      rcases hm1 with hm1 | hm1
      · rcases hm2 with hm2 | hm2
        · exact .inl (strLt_trans hm1 hm2)
        · rw [← hm2]
          exact .inl hm1
      · rcases hm2 with hm2 | hm2
        · rw [hm1]
          exact .inl hm2
        · exact .inr (hm1.trans hm2)

instance : IsTotal Endpoint epOrder := ⟨epLe_total⟩

instance : IsTrans Endpoint epOrder := ⟨epLe_trans⟩

theorem csvRowsLoop_shape (eps : List Endpoint) :
    ∀ (trows : List (List String)), csvRowsLoop eps = .ok trows →
    List.Forall₂ (fun (r : List String) (ep : Endpoint) =>
      ∃ t, pyJoin ", " ep.tags = .ok t ∧
        r = [ep.method, ep.path, pyStr ep.summary, t, pyStr ep.deprecated]) trows eps := by
  induction eps with
  | nil =>
      intro trows h
      simp only [csvRowsLoop, Except.ok.injEq] at h
      rw [← h]
      exact List.Forall₂.nil
  | cons ep rest ih =>
      intro trows h
      simp only [csvRowsLoop] at h
      rw [bind_ok] at h
      obtain ⟨t, ht, h⟩ := h
      rw [bind_ok] at h
      obtain ⟨rest', hrest', h⟩ := h
      simp only [Except.ok.injEq] at h
      rw [← h]
      exact List.Forall₂.cons ⟨t, ht, rfl⟩ (ih rest' hrest')

/-- C7: the CSV export writes the header row `Method,Path,Summary,Tags,
Deprecated` first — also when the document has zero endpoints — followed by
exactly one row per endpoint of `list_all_endpoints`, in its order, which is
ascending in the pair (path string, method string) compared lexicographically;
each row holds the five ordered cells Method, Path, Summary, comma-joined
Tags, and Deprecated. -/
theorem C7_csv_export :
    (∀ (spec : List (String × Json)) (rows : List (List String)),
        export_endpoints_csv spec = .ok rows →
        ∃ eps trows, list_all_endpoints spec = .ok eps ∧
          rows = csvHeader :: trows ∧
          trows.length = eps.length ∧
          List.Sorted epOrder eps ∧
          List.Forall₂ (fun (r : List String) (ep : Endpoint) =>
            ∃ t, pyJoin ", " ep.tags = .ok t ∧
              r = [ep.method, ep.path, pyStr ep.summary, t, pyStr ep.deprecated])
            trows eps) ∧
    (∀ spec : List (String × Json), list_all_endpoints spec = .ok [] →
        export_endpoints_csv spec = .ok [csvHeader]) := by
  constructor
  · intro spec rows h
    unfold export_endpoints_csv at h
    rw [bind_ok] at h
    obtain ⟨eps, heps, h⟩ := h
    rw [bind_ok] at h
    obtain ⟨trows, htrows, h⟩ := h
    simp only [Except.ok.injEq] at h
    have hshape := csvRowsLoop_shape eps trows htrows
    have hsorted : List.Sorted epOrder eps := by
      unfold list_all_endpoints at heps
      rw [bind_ok] at heps
      obtain ⟨items, _, heps⟩ := heps
      rw [bind_ok] at heps
      obtain ⟨eps0, _, heps⟩ := heps
      simp only [Except.ok.injEq] at heps
      rw [← heps]
      exact List.sorted_insertionSort epOrder eps0
    exact ⟨eps, trows, heps, h.symm, hshape.length_eq, hsorted, hshape⟩
  · intro spec h
    simp [export_endpoints_csv, h, ok_bind, csvRowsLoop]

theorem C7_csv_export_witness :
    (∃ eps trows,
        list_all_endpoints petsDoc = .ok eps ∧
        ([csvHeader,
          ["GET", "/pets", "List pets", "pets", "False"],
          ["POST", "/pets", "", "pets", "False"]] : List (List String)) =
          csvHeader :: trows ∧
        trows.length = eps.length ∧
        List.Sorted epOrder eps ∧
        List.Forall₂ (fun (r : List String) (ep : Endpoint) =>
          ∃ t, pyJoin ", " ep.tags = .ok t ∧
            r = [ep.method, ep.path, pyStr ep.summary, t, pyStr ep.deprecated])
          trows eps) ∧
    export_endpoints_csv [] = .ok [csvHeader] :=
  ⟨C7_csv_export.1 petsDoc
      [csvHeader,
       ["GET", "/pets", "List pets", "pets", "False"],
       ["POST", "/pets", "", "pets", "False"]] (by decide),
   C7_csv_export.2 [] (by decide)⟩

/-! ## C6: the request-collection (Postman) export. -/

theorem pyGet_ok_eq {j : Json} {k : String} {d v : Json} (h : pyGet j k d = .ok v) :
    v = jsonGetD j k d := by
  obtain ⟨kvs, rfl, hv⟩ := pyGet_ok_obj h
  simpa [jsonGetD] using hv

def headOnlyDoc : List (String × Json) :=
  [("paths", .obj [("/h", .obj [("head", .obj [])])])]

/-- C6 counterexample: a document whose only operation is a `HEAD` operation
yields a collection with no items at all, although the claim demands one item
per `(path, method)` pair over all seven recognized methods; the method is
present in the path item, but the export iterates only five methods. -/
theorem C6_head_counterexample :
    generate_postman_collection headOnlyDoc =
      .ok ⟨Json.str "API", Json.str "", Json.str "1.0.0", [], []⟩ ∧
    pyContainsStr (Json.obj [("head", .obj [])]) "head" = .ok true := by
  decide

/-- The document's `(path, method, operation)` triples over a method list, in
document order: the reference walk the collection items are compared with. -/
def opsMethodsLoop (path : String) (pathItem : Json) (ms : List String) :
    Py (List (String × String × Json)) :=
  match ms with
  | [] => .ok []
  | m :: rest => do
      let hit ← pyContainsStr pathItem m
      if hit then do
        let op ← pyIndexStr pathItem m
        let rest' ← opsMethodsLoop path pathItem rest
        .ok ((path, m, op) :: rest')
      else
        opsMethodsLoop path pathItem rest

def opsPathsLoop (items : List (String × Json)) (ms : List String) :
    Py (List (String × String × Json)) :=
  match items with
  | [] => .ok []
  | (path, pathItem) :: rest => do
      let ops ← opsMethodsLoop path pathItem ms
      let rest' ← opsPathsLoop rest ms
      .ok (ops ++ rest')

def documentOperations (spec : List (String × Json)) (ms : List String) :
    Py (List (String × String × Json)) := do
  let items ← pyItems (dictGetD spec "paths" (Json.obj []))
  opsPathsLoop items ms

/-- The per-item correspondence between a collection item and a document
`(path, method, operation)` triple. -/
def pmItemMatches (it : PostmanItem) (h : String × String × Json) : Prop :=
  it.method = pyUpper h.2.1 ∧
  it.name = jsonGetD h.2.2 "summary" (Json.str (pyUpper h.2.1 ++ " " ++ h.1)) ∧
  it.rawUrl = "\x7b\x7bbase_url\x7d\x7d" ++ h.1 ∧
  it.pathSegs = (strSplitSlash h.1).drop 1

theorem pm_ops_methods (ms : List String) :
    ∀ (path : String) (pathItem : Json) (its : List PostmanItem),
    pmMethodsLoop path pathItem ms = .ok its →
    ∃ ops, opsMethodsLoop path pathItem ms = .ok ops ∧
      List.Forall₂ pmItemMatches its ops := by
  induction ms with
  | nil =>
      intro path pathItem its h
      simp only [pmMethodsLoop, Except.ok.injEq] at h
      exact ⟨[], rfl, by rw [← h]; exact List.Forall₂.nil⟩
  | cons m rest ih =>
      intro path pathItem its h
      simp only [pmMethodsLoop] at h
      rw [bind_ok] at h
      obtain ⟨hit, hhit, h⟩ := h
      cases hit with
      | false =>
          simp only [Bool.false_eq_true, if_false] at h
          obtain ⟨ops, hops, hf⟩ := ih path pathItem its h
          refine ⟨ops, ?_, hf⟩
          simp only [opsMethodsLoop, hhit, ok_bind, Bool.false_eq_true, if_false]
          exact hops
      | true =>
          simp only [if_true] at h
          rw [bind_ok] at h
          obtain ⟨op, hop, h⟩ := h
          rw [bind_ok] at h
          obtain ⟨name, hname, h⟩ := h
          rw [bind_ok] at h
          obtain ⟨params, hparams, h⟩ := h
          cases hq : pyTruthy params with
          | true =>
              simp only [hq, if_true] at h
              rw [bind_ok] at h
              obtain ⟨paramsV, _, h⟩ := h
              rw [bind_ok] at h
              obtain ⟨ps, _, h⟩ := h
              rw [bind_ok] at h
              obtain ⟨q, _, h⟩ := h
              rw [bind_ok] at h
              obtain ⟨y, _, h⟩ := h
              rw [bind_ok] at h
              obtain ⟨rest', hrest', h⟩ := h
              simp only [Except.ok.injEq] at h
              obtain ⟨ops, hops, hf⟩ := ih path pathItem rest' hrest'
              refine ⟨(path, m, op) :: ops, ?_, ?_⟩
              · simp only [opsMethodsLoop, hhit, ok_bind, if_true, hop, hops,
                  Except.ok.injEq]
              · rw [← h]
                exact List.Forall₂.cons ⟨rfl, pyGet_ok_eq hname, rfl, rfl⟩ hf
          | false =>
              simp only [hq, Bool.false_eq_true, if_false] at h
              rw [bind_ok] at h
              obtain ⟨y, _, h⟩ := h
              rw [bind_ok] at h
              obtain ⟨rest', hrest', h⟩ := h
              simp only [Except.ok.injEq] at h
              obtain ⟨ops, hops, hf⟩ := ih path pathItem rest' hrest'
              refine ⟨(path, m, op) :: ops, ?_, ?_⟩
              · simp only [opsMethodsLoop, hhit, ok_bind, if_true, hop, hops,
                  Except.ok.injEq]
              · rw [← h]
                exact List.Forall₂.cons ⟨rfl, pyGet_ok_eq hname, rfl, rfl⟩ hf

theorem pm_ops_paths (items : List (String × Json)) :
    ∀ (its : List PostmanItem),
    pmPathsLoop items = .ok its →
    ∃ ops, opsPathsLoop items postmanMethods = .ok ops ∧
      List.Forall₂ pmItemMatches its ops := by
  induction items with
  | nil =>
      intro its h
      simp only [pmPathsLoop, Except.ok.injEq] at h
      exact ⟨[], rfl, by rw [← h]; exact List.Forall₂.nil⟩
  | cons hd tl ih =>
      intro its h
      obtain ⟨path, pathItem⟩ := hd
      simp only [pmPathsLoop] at h
      rw [bind_ok] at h
      obtain ⟨eps, heps, h⟩ := h
      rw [bind_ok] at h
      obtain ⟨rest', hrest', h⟩ := h
      simp only [Except.ok.injEq] at h
      obtain ⟨ops1, hops1, hf1⟩ := pm_ops_methods postmanMethods path pathItem eps heps
      obtain ⟨ops2, hops2, hf2⟩ := ih rest' hrest'
      refine ⟨ops1 ++ ops2, ?_, ?_⟩
      · simp only [opsPathsLoop, hops1, ok_bind, hops2, Except.ok.injEq]
      · rw [← h]
        exact List.rel_append hf1 hf2

/-- C6 amended: the collection contains exactly one item per `(path, method)`
pair present in the document over the FIVE iterated methods GET, POST, PUT,
DELETE and PATCH (HEAD and OPTIONS operations are omitted), in document
order, each item's display name being the operation summary or the fallback
"METHOD PATH" when the summary key is absent; the `base_url` variable is
included exactly when the declared server list is truthy (non-empty) and the
`url` value of its first entry exists and is truthy (e.g. a non-empty
string), in which case that first URL is its value. -/
theorem C6_postman_collection (spec : List (String × Json)) (c : PostmanCollection)
    (h : generate_postman_collection spec = .ok c) :
    (∃ hits, documentOperations spec postmanMethods = .ok hits ∧
      List.Forall₂ pmItemMatches c.items hits) ∧
    ((∃ v, c.vars = [("base_url", v)]) ↔
      (pyTruthy (dictGetD spec "servers" (Json.arr [])) = true ∧
       ∃ s0 u, pyIndexNat (dictGetD spec "servers" (Json.arr [])) 0 = .ok s0 ∧
         pyIndexStr s0 "url" = .ok u ∧ pyTruthy u = true)) := by
  cases hserv : pyTruthy (dictGetD spec "servers" (Json.arr [])) with
  | false =>
      simp only [generate_postman_collection, hserv, Bool.false_eq_true, if_false,
        ok_bind] at h
      rw [bind_ok] at h
      obtain ⟨name, hname, h⟩ := h
      rw [bind_ok] at h
      obtain ⟨description, hdescr, h⟩ := h
      rw [bind_ok] at h
      obtain ⟨version, hversion, h⟩ := h
      rw [bind_ok] at h
      obtain ⟨items, hitems, h⟩ := h
      rw [bind_ok] at h
      obtain ⟨pmItems, hpm, h⟩ := h
      simp only [Except.ok.injEq] at h
      constructor
      · obtain ⟨ops, hops, hf⟩ := pm_ops_paths items pmItems hpm
        refine ⟨ops, ?_, ?_⟩
        · simp only [documentOperations, hitems, ok_bind]
          exact hops
        · rw [← h]
          exact hf
      · rw [← h]
        simp [pyTruthy, hserv]
  | true =>
      simp only [generate_postman_collection, hserv, if_true] at h
      rw [bind_ok] at h
      obtain ⟨s0, hs0, h⟩ := h
      rw [bind_ok] at h
      obtain ⟨u, hu, h⟩ := h
      rw [bind_ok] at h
      obtain ⟨name, hname, h⟩ := h
      rw [bind_ok] at h
      obtain ⟨description, hdescr, h⟩ := h
      rw [bind_ok] at h
      obtain ⟨version, hversion, h⟩ := h
      rw [bind_ok] at h
      obtain ⟨items, hitems, h⟩ := h
      rw [bind_ok] at h
      obtain ⟨pmItems, hpm, h⟩ := h
      simp only [Except.ok.injEq] at h
      constructor
      · obtain ⟨ops, hops, hf⟩ := pm_ops_paths items pmItems hpm
        refine ⟨ops, ?_, ?_⟩
        · simp only [documentOperations, hitems, ok_bind]
          exact hops
        · rw [← h]
          exact hf
      · rw [← h]
        simp only
        cases htru : pyTruthy u with
        | false =>
            simp only [htru, Bool.false_eq_true, if_false]
            constructor
            · intro ⟨v, hv⟩
              simp at hv
            · intro ⟨_, s0', u', hs0', hu', htru'⟩
              rw [hs0, Except.ok.injEq] at hs0'
              subst hs0'
              rw [hu, Except.ok.injEq] at hu'
              subst hu'
              rw [htru] at htru'
              exact absurd htru' (by simp)
        | true =>
            simp only [htru, if_true]
            exact ⟨fun _ => ⟨by trivial, s0, u, hs0, hu, htru⟩, fun _ => ⟨u, rfl⟩⟩

def pmServerDoc : List (String × Json) :=
  [("servers", .arr [.obj [("url", .str "http://x")]]),
   ("info", .obj [("title", .str "Pets API")]),
   ("paths", .obj [("/pets", .obj [("get", .obj [("summary", .str "List")]),
                                   ("head", .obj [])])])]

theorem C6_postman_collection_witness :
    (∃ hits, documentOperations pmServerDoc postmanMethods = .ok hits ∧
      List.Forall₂ pmItemMatches
        [⟨.str "List", "GET", "\x7b\x7bbase_url\x7d\x7d/pets",
          ["\x7b\x7bbase_url\x7d\x7d"], ["pets"], none⟩]
        hits) ∧
    ((∃ v, ([("base_url", Json.str "http://x")] : List (String × Json)) =
        [("base_url", v)]) ↔
      (pyTruthy (dictGetD pmServerDoc "servers" (Json.arr [])) = true ∧
       ∃ s0 u, pyIndexNat (dictGetD pmServerDoc "servers" (Json.arr [])) 0 = .ok s0 ∧
         pyIndexStr s0 "url" = .ok u ∧ pyTruthy u = true)) :=
  C6_postman_collection pmServerDoc
    ⟨.str "Pets API", .str "", .str "1.0.0",
     [⟨.str "List", "GET", "\x7b\x7bbase_url\x7d\x7d/pets",
       ["\x7b\x7bbase_url\x7d\x7d"], ["pets"], none⟩],
     [("base_url", .str "http://x")]⟩
    (by decide)
